import Mathlib

/-!
# retryclient: rate-limited, retrying HTTP transport

A shallow embedding of `httputil/retryclient/retryclient.go` and the properties of its
retry engine (`retryTransport.RoundTrip`, `shouldRetry`, `getRetryAfter`), of its rate
limiter (`rateLimiterTransport`) and of `New`.

Modelling conventions.

* `time.Duration` is a signed 64-bit count of nanoseconds: `Duration := Int`, with `wrap64`
  applied where the Go arithmetic can leave the 64-bit range (`backoff * 2`).
* `*http.Response` is `Option Response` (`none` is `nil`), `error` is `Option GoError`.
* The collaborators of a call are explicit: `Env.next n` is what `t.next.RoundTrip(req)`
  yields on attempt `n`, `req.GetBody` applied to `n` is what the body provider yields when
  it is called on attempt `n`, and `Env.ctxDone n` tells whether the request context is
  done while the pause that follows attempt `n` is waiting.
* The effects of a call are recorded as a list of `Event`s, in program order.
* The attempt counter is a Go `int`; it is modelled as a natural number (it would take
  `2^63` iterations of the loop to make it wrap).
* The `float64` arithmetic of `time.ParseDuration` is that of IEEE 754 binary64 (`Float64`):
  every operation rounds to the nearest value, ties to even.
* The token channel of the rate limiter is a counter with a capacity; the ticker goroutine
  and the calls of `rateLimiterTransport.RoundTrip` act on it by atomic steps, and a run is
  an interleaving of these steps.
-/

namespace Retryclient

/-! ## Durations -/

/-- Go `time.Duration`: nanoseconds, a signed 64-bit integer. -/
abbrev Duration := Int

/-- One nanosecond (`time.Nanosecond`). -/
def Nanosecond : Duration := 1

/-- One microsecond (`time.Microsecond`). -/
def Microsecond : Duration := 1000 * Nanosecond

/-- One millisecond (`time.Millisecond`). -/
def Millisecond : Duration := 1000 * Microsecond

/-- One second (`time.Second`). -/
def Second : Duration := 1000 * Millisecond

/-- One minute (`time.Minute`). -/
def Minute : Duration := 60 * Second

/-- One hour (`time.Hour`). -/
def Hour : Duration := 60 * Minute

/-- Reduction of a mathematical integer to the signed 64-bit range (two's complement). -/
def wrap64 (x : Int) : Int := (x + 2 ^ 63) % 2 ^ 64 - 2 ^ 63

/-! ## Requests, responses, errors -/

/-- The errors that can flow through the transport chain. -/
inductive GoError where
  /-- The package variable `errMaxRetries`. -/
  | errMaxRetries
  /-- The error `context.Canceled`. -/
  | canceled
  /-- The error `context.DeadlineExceeded`. -/
  | deadlineExceeded
  /-- Any other error, identified by its message. -/
  | other (msg : String)
deriving DecidableEq, Repr

/-- An `io.ReadCloser` body stream, identified by a number. -/
abbrev ReadCloser := Nat

/-- The parts of `http.Response` the package reads. `RetryAfter` is the value of
`resp.Header.Get("Retry-After")`, the empty string when the header is absent. -/
structure Response where
  StatusCode : Int
  RetryAfter : String
  Body : ReadCloser
deriving DecidableEq, Repr

/-- The parts of `http.Request` the package reads. `Body = none` is a nil body,
`GetBody = none` a nil provider; a provider is applied to the number of the attempt that
calls it and answers with a fresh body or an error. -/
structure Request where
  Body : Option ReadCloser
  GetBody : Option (Nat → Except GoError (Option ReadCloser))

/-- The collaborators of one call of `retryTransport.RoundTrip`. -/
structure Env where
  /-- Result of `t.next.RoundTrip(req)` on attempt `n` (the first attempt is `1`). -/
  next : Nat → Option Response × Option GoError
  /-- Whether `ctx.Done()` is ready while the pause after attempt `n` waits. -/
  ctxDone : Nat → Bool

/-- The observable effects of `retryTransport.RoundTrip`, in program order. -/
inductive Event where
  /-- A call of `req.GetBody()` on the given attempt and its result. -/
  | getBody (attempt : Nat) (res : Except GoError (Option ReadCloser))
  /-- A call of `t.next.RoundTrip(req)` with the request body in use, and its result. -/
  | dispatch (attempt : Nat) (body : Option ReadCloser) (resp : Option Response)
      (err : Option GoError)
  /-- A call of `resp.Body.Close()`. -/
  | close (resp : Response)
  /-- A call of `t.sleep(ctx, d)`; the flag tells whether the context ended the wait. -/
  | sleep (d : Duration) (interrupted : Bool)

/-- What a call of `RoundTrip` gives back: a `(response, error)` pair, or a run-time panic
(calling a nil `GetBody`). -/
inductive Ret where
  | ret (resp : Option Response) (err : Option GoError)
  | panic

/-! ## shouldRetry -/

/-- Go `shouldRetry`: true for transport errors or HTTP status 429 / 5xx. -/
def shouldRetry (resp : Option Response) (err : Option GoError) : Bool :=
  if err ≠ none then true
  else
    match resp with
    | none => true
    | some r =>
      if r.StatusCode = 429 then true
      else if r.StatusCode ≥ 500 ∧ r.StatusCode ≤ 599 then true
      else false

/-! ## time.ParseDuration

`getRetryAfter` hands the header value, with an `s` appended, to the Go standard library
function `time.ParseDuration`. The function is transcribed here from the Go sources (the
version that accumulates in an unsigned 64-bit integer). A Go string is a byte sequence; it
is modelled by its list of characters, which splits at the same places because the parser
only looks for ASCII digits, `.`, `+` and `-`. -/

/-- The ways `time.ParseDuration` fails; `fuel` is not a Go error, it marks a parsing loop
that was given too few iterations (it never is, see `parseUnits_fuel`). -/
inductive ParseError where
  | invalid
  | missingUnit
  | unknownUnit
  | fuel
deriving DecidableEq, Repr

/-- Go `c < '0' || c > '9'` negated: the byte is an ASCII digit (`'0'` is 48, `'9'` is 57). -/
def isDigit (c : Char) : Bool := decide (48 ≤ c.toNat ∧ c.toNat ≤ 57)

/-- The loop of Go `leadingInt`, started with the accumulator `x`: consumes the leading
`[0-9]*`, `none` on overflow (`errLeadingInt`). -/
def leadingIntFrom (x : Nat) : List Char → Option (Nat × List Char)
  | [] => some (x, [])
  | c :: cs =>
    if !isDigit c then some (x, c :: cs)
    else if x > 2 ^ 63 / 10 then none
    else
      let y := x * 10 + (c.toNat - 48)
      if y > 2 ^ 63 then none else leadingIntFrom y cs

/-- Go `leadingInt`. -/
def leadingInt (s : List Char) : Option (Nat × List Char) := leadingIntFrom 0 s

/-- A Go `float64` (IEEE 754 binary64) that is not negative: a finite value `m * 2^e`
(zero is `m = 0`, `e = 0`; a normal number has `2^52 ≤ m < 2^53` and `-1074 ≤ e ≤ 971`; a
subnormal one has `m < 2^52` and `e = -1074`), the positive infinity, or a NaN.
`time.ParseDuration` computes with no negative `float64`. -/
inductive Float64 where
  | finite (m : Nat) (e : Int)
  | inf
  | nan
deriving DecidableEq, Repr

/-- Scaling of the fraction `n / d` by powers of two until its integer part has exactly 53
bits: the result `(n1, d1, e)` has `n / d = (n1 / d1) * 2^e` and `2^52 ≤ n1 / d1 < 2^53`.
The first argument bounds the number of doublings; quotients and products of finite
`float64`s need fewer than 2300. -/
def Float64.normalize : Nat → Nat → Nat → Int → Nat × Nat × Int
  | 0, n, d, e => (n, d, e)
  | k + 1, n, d, e =>
    if n / d < 2 ^ 52 then Float64.normalize k (2 * n) d (e - 1)
    else if 2 ^ 53 ≤ n / d then Float64.normalize k n (2 * d) (e + 1)
    else (n, d, e)

/-- The integer nearest to the fraction `n / d`, ties going to the even one. -/
def Float64.nearest (n d : Nat) : Nat :=
  if 2 * (n % d) > d ∨ (2 * (n % d) = d ∧ n / d % 2 = 1) then n / d + 1 else n / d

/-- The `float64` nearest to the non-negative fraction `n / d`, ties going to the even
significand (the rounding of every IEEE 754 operation of Go): below `2^-1022` the
`float64`s are `2^-1074` apart, and a result of `2^1024` or more is the infinity. -/
def Float64.round (n d : Nat) : Float64 :=
  if n = 0 then .finite 0 0
  else if (Float64.normalize 2300 n d 0).2.2 < -1074 then
    if Float64.nearest (n * 2 ^ 1074) d = 0 then .finite 0 0
    else .finite (Float64.nearest (n * 2 ^ 1074) d) (-1074)
  else
    let p := Float64.normalize 2300 n d 0
    let m := Float64.nearest p.1 p.2.1
    if m = 2 ^ 53 then
      if p.2.2 + 1 > 971 then .inf else .finite (2 ^ 52) (p.2.2 + 1)
    else if p.2.2 > 971 then .inf else .finite m p.2.2

/-- Go `float64(x)` for an unsigned integer `x`. -/
def Float64.ofNat (x : Nat) : Float64 := Float64.round x 1

/-- Go `a / b` on `float64`s that are not negative. -/
def Float64.div : Float64 → Float64 → Float64
  | .finite ma ea, .finite mb eb =>
    if mb = 0 then (if ma = 0 then .nan else .inf)
    else if ea - eb ≥ 0 then Float64.round (ma * 2 ^ (ea - eb).toNat) mb
    else Float64.round ma (mb * 2 ^ (eb - ea).toNat)
  | .finite _ _, .inf => .finite 0 0
  | .inf, .finite _ _ => .inf
  | _, _ => .nan

/-- Go `a * b` on `float64`s that are not negative. -/
def Float64.mul : Float64 → Float64 → Float64
  | .finite ma ea, .finite mb eb =>
    if ea + eb ≥ 0 then Float64.round (ma * mb * 2 ^ (ea + eb).toNat) 1
    else Float64.round (ma * mb) (2 ^ (-(ea + eb)).toNat)
  | .finite m _, .inf => if m = 0 then .nan else .inf
  | .inf, .finite m _ => if m = 0 then .nan else .inf
  | .inf, .inf => .inf
  | _, _ => .nan

/-- Go `uint64(a)` for a finite `float64` below `2^64`: the integer part. (Go leaves the
conversion of other values to the platform; they are given 0 here. In `ParseDuration` the
value converted is a fraction of a unit, finite and far below `2^64`.) -/
def Float64.toUint64 : Float64 → Nat
  | .finite m e => if e ≥ 0 then m * 2 ^ e.toNat else m / 2 ^ (-e).toNat
  | _ => 0

/-- The loop of Go `leadingFraction`, with its state `x`, `scale`, `overflow`: consumes the
leading `[0-9]*` and stops accumulating precision on overflow. As in Go, `scale` is a
`float64`, multiplied by 10 for each digit taken. -/
def leadingFractionFrom (x : Nat) (scale : Float64) (overflow : Bool) :
    List Char → Nat × Float64 × List Char
  | [] => (x, scale, [])
  | c :: cs =>
    if !isDigit c then (x, scale, c :: cs)
    else if overflow then leadingFractionFrom x scale overflow cs
    else if x > (2 ^ 63 - 1) / 10 then leadingFractionFrom x scale true cs
    else
      let y := x * 10 + (c.toNat - 48)
      if y > 2 ^ 63 then leadingFractionFrom x scale true cs
      else leadingFractionFrom y (Float64.mul scale (Float64.ofNat 10)) overflow cs

/-- Go `leadingFraction`. -/
def leadingFraction (s : List Char) : Nat × Float64 × List Char :=
  leadingFractionFrom 0 (Float64.ofNat 1) false s

/-- Go `unitMap`: nanoseconds per unit (`µ` is U+00B5, `μ` is U+03BC). -/
def unitMap : List Char → Option Nat
  | ['n', 's'] => some 1
  | ['u', 's'] => some 1000
  | ['µ', 's'] => some 1000
  | ['μ', 's'] => some 1000
  | ['m', 's'] => some 1000000
  | ['s'] => some 1000000000
  | ['m'] => some 60000000000
  | ['h'] => some 3600000000000
  | _ => none

/-- The unit scan of `ParseDuration`: the characters up to the next `.` or digit. -/
def spanUnit : List Char → List Char × List Char
  | [] => ([], [])
  | c :: cs =>
    if c = '.' ∨ isDigit c then ([], c :: cs)
    else ((spanUnit cs).1.cons c, (spanUnit cs).2)

/-- Go `uint64(float64(f) * (float64(unit) / scale))`, the nanoseconds contributed by the
fractional digits `f / scale` of a unit, computed as Go does in `float64`: the conversion
of `f`, the quotient and the product are each rounded to the nearest `float64`. -/
def fractionNanos (f unit : Nat) (scale : Float64) : Nat :=
  Float64.toUint64
    (Float64.mul (Float64.ofNat f) (Float64.div (Float64.ofNat unit) scale))

/-- The block `Consume (\.[0-9]*)?` of `time.ParseDuration`: after the integer part, an
optional `.` and fraction digits. Gives `f`, `scale`, the rest of the string, and `post`
(whether a digit was consumed after the period). -/
def fractionPart : List Char → Nat × Float64 × List Char × Bool
  | '.' :: s2 =>
    ((leadingFraction s2).1, (leadingFraction s2).2.1, (leadingFraction s2).2.2,
      decide (s2.length ≠ (leadingFraction s2).2.2.length))
  | s1 => (0, Float64.ofNat 1, s1, false)

/-- The block `Consume unit` of `time.ParseDuration` once the unit `u` is cut out: the
nanoseconds of `v + f / scale` units, in unsigned 64-bit arithmetic with overflow checks. -/
def scaleUnit (v f : Nat) (scale : Float64) (u : List Char) : Except ParseError Nat :=
  if u.length = 0 then .error .missingUnit
  else
    match unitMap u with
    | none => .error .unknownUnit
    | some unit =>
      if v > 2 ^ 63 / unit then .error .invalid
      else if f > 0 then
        if v * unit + fractionNanos f unit scale > 2 ^ 63 then .error .invalid
        else .ok (v * unit + fractionNanos f unit scale)
      else .ok (v * unit)

/-- One round of the loop `for s != ""` of `time.ParseDuration`, up to the update of `d`:
parses one number with its unit, and gives its nanoseconds and the rest of the string. -/
def parseGroup : List Char → Except ParseError (Nat × List Char)
  | [] => .error .invalid
  | c :: cs =>
    if !(c = '.' ∨ isDigit c) then .error .invalid
    else
      match leadingInt (c :: cs) with
      | none => .error .invalid
      | some (v, s1) =>
        if !decide ((c :: cs).length ≠ s1.length) && !(fractionPart s1).2.2.2 then
          .error .invalid
        else
          match scaleUnit v (fractionPart s1).1 (fractionPart s1).2.1
              (spanUnit (fractionPart s1).2.2.1).1 with
          | .error e => .error e
          | .ok v2 => .ok (v2, (spanUnit (fractionPart s1).2.2.1).2)

/-- The loop `for s != ""` of `time.ParseDuration`, accumulating in the unsigned 64-bit
`d`. Each round consumes at least one character; `fuel` bounds the rounds. -/
def parseUnits : Nat → List Char → Nat → Except ParseError Nat
  | _, [], d => .ok d
  | 0, _ :: _, _ => .error .fuel
  | fuel + 1, c :: cs, d =>
    match parseGroup (c :: cs) with
    | .error e => .error e
    | .ok (v, rest) =>
      if (d + v) % 2 ^ 64 > 2 ^ 63 then .error .invalid
      else parseUnits fuel rest ((d + v) % 2 ^ 64)

/-- The block `Consume [-+]?` of `time.ParseDuration`: the string without a leading sign. -/
def stripSign : List Char → List Char
  | [] => []
  | c :: cs => if c = '-' ∨ c = '+' then cs else c :: cs

/-- Go `time.ParseDuration`, on the characters of the string. -/
def parseDurationChars (s : List Char) : Except ParseError Duration :=
  if stripSign s = ['0'] then .ok 0
  else if stripSign s = [] then .error .invalid
  else
    match parseUnits (stripSign s).length (stripSign s) 0 with
    | .error e => .error e
    | .ok d =>
      if s.head? = some '-' then .ok (wrap64 (-(wrap64 d)))
      else if d > 2 ^ 63 - 1 then .error .invalid
      else .ok d

/-- Go `time.ParseDuration`. -/
def ParseDuration (s : String) : Except ParseError Duration := parseDurationChars s.data

/-- The number written by a string of decimal digits, continuing from `x`. -/
def digitsValue (x : Nat) (ds : List Char) : Nat :=
  ds.foldl (fun acc c => acc * 10 + (c.toNat - 48)) x

/-- The characters a Go duration string is made of after its sign: decimal digits, the
period, and the letters of the units `ns`, `us`, `µs`, `μs`, `ms`, `s`, `m`, `h`. -/
def durationChar (c : Char) : Bool :=
  isDigit c || decide (c = '.') || decide (c ∈ ['n', 'u', 'µ', 'μ', 'm', 's', 'h'])

/-! ## getRetryAfter -/

/-- Go `getRetryAfter`: parses the Retry-After header (seconds only). -/
def getRetryAfter (resp : Option Response) : Duration :=
  match resp with
  | none => 0
  | some r =>
    if r.RetryAfter ≠ "" then
      match ParseDuration (r.RetryAfter ++ "s") with
      | .ok sec => sec
      | .error _ => 0
    else 0

/-! ## retryTransport -/

/-- Go `retryTransport` (the `next` round tripper is the `Env`). `maxRetries` is a Go
`int`, the two backoffs are durations. -/
structure retryTransport where
  maxRetries : Int
  initialBackoff : Duration
  maxBackoff : Duration

/-- The closing of a response body, `if resp != nil { resp.Body.Close() }`. -/
def closeBody : Option Response → List Event
  | none => []
  | some r => [Event.close r]

/-- The outcome of the "fresh body" block at the head of the loop. -/
inductive Fresh where
  /-- The attempt goes on with this request body. -/
  | use (body : Option ReadCloser) (evs : List Event)
  /-- The call ends here. -/
  | fail (r : Ret) (evs : List Event)

/-- The block `if attempt > 1 && req.Body != nil { br, err := req.GetBody(); ... }`:
on a later attempt of a request with a body, ask the provider for a fresh one; an error
ends the call with `(nil, err)`, a body replaces `req.Body`. -/
def freshBody (getBody : Option (Nat → Except GoError (Option ReadCloser))) (attempt : Nat)
    (body : Option ReadCloser) : Fresh :=
  if attempt > 1 ∧ body ≠ none then
    match getBody with
    | none => .fail .panic []
    | some f =>
      match f attempt with
      | .error err => .fail (.ret none (some err)) [.getBody attempt (.error err)]
      | .ok br => .use br [.getBody attempt (.ok br)]
  else .use body []

/-- The outcome of one round of the `for` loop of `RoundTrip`. -/
inductive Step where
  /-- The round returned `r`. -/
  | done (r : Ret) (evs : List Event)
  /-- The round ended in a pause; the loop goes on with this body and backoff. -/
  | next (body : Option ReadCloser) (backoff : Duration) (evs : List Event)

/-- One round of the `for` loop of `retryTransport.RoundTrip`; `attempt` is the counter
after `attempt++`, `body` is `req.Body` and `backoff` the local variable when the round
starts. The pause `t.sleep(ctx, d)` returns nothing: whether the timer or the context
ended it is recorded in the event and has no other effect. -/
def iteration (t : retryTransport) (env : Env)
    (getBody : Option (Nat → Except GoError (Option ReadCloser))) (attempt : Nat)
    (body : Option ReadCloser) (backoff : Duration) : Step :=
  match freshBody getBody attempt body with
  | .fail r evs => .done r evs
  | .use body1 evs =>
    let resp := (env.next attempt).1
    let err := (env.next attempt).2
    let sent := evs ++ [Event.dispatch attempt body1 resp err]
    if !shouldRetry resp err || decide ((attempt : Int) > t.maxRetries) then
      if decide ((attempt : Int) > t.maxRetries) && shouldRetry resp err then
        .done (.ret none (some .errMaxRetries)) (sent ++ closeBody resp)
      else .done (.ret resp err) sent
    else
      let ra := getRetryAfter resp
      if ra > 0 then
        .next body1 backoff (sent ++ closeBody resp ++ [.sleep ra (env.ctxDone attempt)])
      else
        let doubled := wrap64 (backoff * 2)
        .next body1 (if doubled > t.maxBackoff then t.maxBackoff else doubled)
          (sent ++ closeBody resp ++ [.sleep backoff (env.ctxDone attempt)])

/-- The `for` loop of `retryTransport.RoundTrip`, entered with the counter `attempt`
(the value before `attempt++`). A round goes on to the next only when
`attempt + 1 ≤ maxRetries`, which is why the loop ends. -/
def loop (t : retryTransport) (env : Env)
    (getBody : Option (Nat → Except GoError (Option ReadCloser))) (attempt : Nat)
    (body : Option ReadCloser) (backoff : Duration) : Ret × List Event :=
  match h : iteration t env getBody (attempt + 1) body backoff with
  | .done r evs => (r, evs)
  | .next body1 backoff1 evs =>
    ((loop t env getBody (attempt + 1) body1 backoff1).1,
      evs ++ (loop t env getBody (attempt + 1) body1 backoff1).2)
termination_by (t.maxRetries - attempt).toNat
decreasing_by
  all_goals
    have hle : ((attempt + 1 : Nat) : Int) ≤ t.maxRetries := by
      by_contra hgt
      have hlt : t.maxRetries < ((attempt + 1 : Nat) : Int) := not_le.mp hgt
      unfold iteration at h
      cases hf : freshBody getBody (attempt + 1) body with
      | fail r evs => simp [hf] at h
      | use b evs =>
        simp only [hf, gt_iff_lt, hlt, decide_True, Bool.or_true, Bool.true_and,
          if_true] at h
        split at h <;> simp at h
    omega

/-- Go `retryTransport.RoundTrip`: the result of the call and its effects in order. A
request with a body and no `GetBody` is sent once through the next round tripper;
otherwise the loop runs from `attempt = 0`, `backoff = t.initialBackoff`. -/
def retryTransport.RoundTrip (t : retryTransport) (env : Env) (req : Request) :
    Ret × List Event :=
  if req.Body ≠ none ∧ req.GetBody.isNone then
    (.ret (env.next 1).1 (env.next 1).2,
      [Event.dispatch 1 req.Body (env.next 1).1 (env.next 1).2])
  else loop t env req.GetBody 0 req.Body t.initialBackoff

/-! ## Reading a trace -/

/-- The events of the fresh-body block. -/
def Fresh.events : Fresh → List Event
  | .use _ evs => evs
  | .fail _ evs => evs

/-- The events of one round of the loop. -/
def Step.events : Step → List Event
  | .done _ evs => evs
  | .next _ _ evs => evs

/-- The number of calls of `t.next.RoundTrip` in a trace. -/
def dispatches : List Event → Nat
  | [] => 0
  | Event.dispatch _ _ _ _ :: es => dispatches es + 1
  | _ :: es => dispatches es

/-- The durations of the pauses of a trace, in order. -/
def waits : List Event → List Duration
  | [] => []
  | Event.sleep d _ :: es => d :: waits es
  | _ :: es => waits es

/-- The request bodies of the dispatches of a trace, in order. -/
def sentBodies : List Event → List (Option ReadCloser)
  | [] => []
  | Event.dispatch _ b _ _ :: es => b :: sentBodies es
  | _ :: es => sentBodies es

/-! ## Reading the release of response bodies -/

/-- A scan of a trace that follows the response whose body is open (obtained by a dispatch
and not closed since). A dispatch and a pause are only allowed when no body is open, and a
close only of the open body. The result is `none` when the trace breaks this discipline,
and otherwise the response whose body is still open at the end. -/
def released : Option Response → List Event → Option (Option Response)
  | o, [] => some o
  | o, Event.getBody _ _ :: es => released o es
  | o, Event.dispatch _ _ resp _ :: es => if o = none then released resp es else none
  | o, Event.close r :: es => if o = some r then released none es else none
  | o, Event.sleep _ _ :: es => if o = none then released none es else none

/-! ## Config and New -/

/-- Go `Config`, without the optional `HTTPClient` (the base transport is the environment
of the calls). `MaxRPS` and `MaxRetries` are Go `int`s, the two backoffs are
`time.Duration`s. -/
structure Config where
  MaxRPS : Int
  MaxRetries : Int
  InitialBackoff : Duration
  MaxBackoff : Duration

/-- A Go channel of `struct{}` values: its capacity and the number of buffered values. -/
structure Chan where
  cap : Nat
  len : Nat
deriving DecidableEq, Repr

/-- Go `rateLimiterTransport` (the `next` round tripper is the environment). `once` tells
whether `r.once` has fired, `tokens = none` is the nil channel. -/
structure rateLimiterTransport where
  maxRPS : Int
  once : Bool
  tokens : Option Chan
deriving DecidableEq, Repr

/-- The chain of transports that `New` installs in the client: the retry transport, whose
`next` is the rate limiter, whose `next` is the base transport. -/
structure Chain where
  retry : retryTransport
  limiter : rateLimiterTransport

/-- The defaults of `New`, applied to the configuration in the order of the source. -/
def withDefaults (cfg : Config) : Config :=
  let cfg1 : Config :=
    if cfg.MaxRetries ≤ 0 then ⟨cfg.MaxRPS, 3, cfg.InitialBackoff, cfg.MaxBackoff⟩ else cfg
  let cfg2 : Config :=
    if cfg1.InitialBackoff = 0 then
      ⟨cfg1.MaxRPS, cfg1.MaxRetries, 200 * Millisecond, cfg1.MaxBackoff⟩
    else cfg1
  if cfg2.MaxBackoff = 0 then ⟨cfg2.MaxRPS, cfg2.MaxRetries, cfg2.InitialBackoff, 2 * Second⟩
  else cfg2

/-- Go `New`: applies the defaults and composes the chain, the rate limiter around the
base transport and the retry transport around the rate limiter. -/
def New (cfg : Config) : Chain :=
  ⟨⟨(withDefaults cfg).MaxRetries, (withDefaults cfg).InitialBackoff,
      (withDefaults cfg).MaxBackoff⟩,
    ⟨(withDefaults cfg).MaxRPS, false, none⟩⟩

/-! ## rateLimiterTransport -/

/-- Go `time.NewTicker(d)`: panics (`none`) when `d` is not positive, and otherwise gives a
ticker of period `d`. -/
def NewTicker (d : Duration) : Option Duration :=
  if d ≤ 0 then none else some d

/-- The effects of the rate limiter, in program order. -/
inductive LimiterEvent where
  /-- The call `make(chan struct{}, cap)`. -/
  | makeChan (cap : Nat)
  /-- The call `time.NewTicker(d)` and the start of the goroutine that reads its ticks. -/
  | newTicker (d : Duration)
  /-- The `select` of `RoundTrip` is entered: the call waits for a token or the context. -/
  | await
  /-- The call `r.next.RoundTrip(req)`. -/
  | dispatch (req : Request)

/-- What a run of `rateLimiterTransport.init` leaves: the limiter, the effects, and whether
the run ended in a panic. -/
structure Initialised where
  limiter : rateLimiterTransport
  events : List LimiterEvent
  panicked : Bool

/-- Go `rateLimiterTransport.init`: nothing when the limiter is disabled; otherwise the
token channel of capacity `maxRPS`, empty, and then a ticker of period
`time.Second / maxRPS` (integer division of positive numbers). When `time.NewTicker`
panics the channel is already made. -/
def rateLimiterTransport.init (r : rateLimiterTransport) : Initialised :=
  if r.maxRPS ≤ 0 then ⟨r, [], false⟩
  else
    match NewTicker (Second / r.maxRPS) with
    | none =>
      ⟨⟨r.maxRPS, r.once, some ⟨r.maxRPS.toNat, 0⟩⟩, [.makeChan r.maxRPS.toNat], true⟩
    | some d =>
      ⟨⟨r.maxRPS, r.once, some ⟨r.maxRPS.toNat, 0⟩⟩,
        [.makeChan r.maxRPS.toNat, .newTicker d], false⟩

/-- The body of the ticker goroutine, `select { case r.tokens <- struct{}{}: default: }`:
a send that does not block; the token is dropped when the buffer is full. -/
def Chan.trySend (c : Chan) : Chan :=
  if c.len < c.cap then ⟨c.cap, c.len + 1⟩ else c

/-- The case `<-r.tokens` of the `select` of `RoundTrip`: takes a buffered token; `none`
when there is none (the receive is not ready). -/
def Chan.tryRecv (c : Chan) : Option Chan :=
  if 0 < c.len then some ⟨c.cap, c.len - 1⟩ else none

/-- What a call of `rateLimiterTransport.RoundTrip` has come to: it returned a
`(response, error)` pair, it panicked, or it is still waiting in its `select`, no case of
which is ready. -/
inductive LimiterRet where
  | ret (resp : Option Response) (err : Option GoError)
  | panic
  | waiting

/-- The collaborators of one call of `rateLimiterTransport.RoundTrip`. -/
structure LimiterEnv where
  /-- The error of the request context, `ctx.Err()`, when `ctx.Done()` is ready. -/
  ctxErr : Option GoError
  /-- The choice of the `select` when both of its cases are ready. -/
  pickCtx : Bool
  /-- The result of `r.next.RoundTrip(req)`. -/
  next : Request → Option Response × Option GoError

/-- The part of `rateLimiterTransport.RoundTrip` after `r.once.Do(r.init)`. With
`maxRPS > 0` the `select` returns the error of the context when the context is done, and
otherwise receives a token from `r.tokens` (a nil channel is never ready) before the
request is dispatched; with no case ready the call waits. -/
def rateLimiterTransport.throttle (r : rateLimiterTransport) (env : LimiterEnv)
    (req : Request) : LimiterRet × rateLimiterTransport × List LimiterEvent :=
  if r.maxRPS > 0 then
    match env.ctxErr, r.tokens.bind Chan.tryRecv with
    | some err, none => (.ret none (some err), r, [.await])
    | some err, some c1 =>
      if env.pickCtx then (.ret none (some err), r, [.await])
      else
        (.ret (env.next req).1 (env.next req).2, ⟨r.maxRPS, r.once, some c1⟩,
          [.await, .dispatch req])
    | none, some c1 =>
      (.ret (env.next req).1 (env.next req).2, ⟨r.maxRPS, r.once, some c1⟩,
        [.await, .dispatch req])
    | none, none => (.waiting, r, [.await])
  else (.ret (env.next req).1 (env.next req).2, r, [.dispatch req])

/-- Go `rateLimiterTransport.RoundTrip`: what the call comes to, the limiter afterwards,
and the effects in order. `r.once.Do(r.init)` runs `init` on the first call only, and
`r.once` is done also when `init` panics. -/
def rateLimiterTransport.RoundTrip (r : rateLimiterTransport) (env : LimiterEnv)
    (req : Request) : LimiterRet × rateLimiterTransport × List LimiterEvent :=
  if r.once then r.throttle env req
  else if r.init.panicked then
    (.panic, ⟨r.init.limiter.maxRPS, true, r.init.limiter.tokens⟩, r.init.events)
  else
    (((⟨r.init.limiter.maxRPS, true, r.init.limiter.tokens⟩ :
        rateLimiterTransport).throttle env req).1,
      ((⟨r.init.limiter.maxRPS, true, r.init.limiter.tokens⟩ :
        rateLimiterTransport).throttle env req).2.1,
      r.init.events ++ ((⟨r.init.limiter.maxRPS, true, r.init.limiter.tokens⟩ :
        rateLimiterTransport).throttle env req).2.2)

/-! ## The rate limiter under interleaving

The ticker goroutine and the calls of `RoundTrip` run concurrently on the limiter. A run
is an interleaving of their atomic steps: a tick, on which the goroutine tries to deposit
a token (`Chan.trySend`), and a call of `RoundTrip` that reaches its `select` (a call that
finds no case ready stays there and is tried again by a later step). -/

/-- The steps of a run of the limiter. -/
inductive LimiterAction where
  /-- A tick of the ticker: the goroutine tries to deposit a token. -/
  | tick
  /-- A call of `RoundTrip` with its collaborators. -/
  | call (env : LimiterEnv) (req : Request)

/-- Whether the step is a tick. -/
def LimiterAction.isTick : LimiterAction → Bool
  | .tick => true
  | .call _ _ => false

/-- Whether the call passed the token wait of `RoundTrip`: it went on to
`r.next.RoundTrip(req)`. -/
def dispatched : List LimiterEvent → Bool
  | [] => false
  | LimiterEvent.dispatch _ :: _ => true
  | _ :: es => dispatched es

/-- One step of a run: the limiter afterwards and whether a call was admitted. A tick acts
on the token channel when there is one (there is no ticker before `init`). -/
def limiterStep (r : rateLimiterTransport) : LimiterAction → rateLimiterTransport × Bool
  | .tick => (⟨r.maxRPS, r.once, r.tokens.map Chan.trySend⟩, false)
  | .call env req => ((r.RoundTrip env req).2.1, dispatched (r.RoundTrip env req).2.2)

/-- The limiter after a sequence of steps. -/
def limiterRun (r : rateLimiterTransport) : List LimiterAction → rateLimiterTransport
  | [] => r
  | a :: as => limiterRun (limiterStep r a).1 as

/-- A step of a run with the time at which it happens, in nanoseconds. -/
structure TimedAction where
  time : Nat
  action : LimiterAction

/-- The steps of a timed run happen in the order of their times. -/
def ordered (run : List TimedAction) : Prop :=
  List.Pairwise (fun a b => a.time ≤ b.time) run

instance (run : List TimedAction) : Decidable (ordered run) := by
  unfold ordered
  infer_instance

/-- The ticks of a timed run follow a ticker of period `d` made at the time `o`: each
happens a positive multiple of `d` after `o`, and later ticks at later times; the deposit
is taken to happen at the time of its tick. (A ticker may skip ticks, it never adds
one.) -/
def onSchedule (o d : Nat) (run : List TimedAction) : Prop :=
  List.Pairwise
      (fun a b => a.action.isTick = true → b.action.isTick = true → a.time < b.time) run ∧
    ∀ e ∈ run, e.action.isTick = true → o < e.time ∧ d ∣ e.time - o

instance (o d : Nat) (run : List TimedAction) : Decidable (onSchedule o d run) := by
  unfold onSchedule
  infer_instance

/-- The number of calls admitted at a time `t` with `lo < t ≤ hi`, in a timed run from the
limiter `r`. -/
def admittedIn (lo hi : Nat) : rateLimiterTransport → List TimedAction → Nat
  | _, [] => 0
  | r, e :: es =>
    (if (limiterStep r e.action).2 = true ∧ lo < e.time ∧ e.time ≤ hi then 1 else 0)
      + admittedIn lo hi (limiterStep r e.action).1 es

/-- The number of ticks at a time `t` with `lo < t ≤ hi` in a timed run. -/
def depositsIn (lo hi : Nat) : List TimedAction → Nat
  | [] => 0
  | e :: es =>
    (if e.action.isTick = true ∧ lo < e.time ∧ e.time ≤ hi then 1 else 0)
      + depositsIn lo hi es

/-- The number of tokens the limiter holds (none without a channel). -/
def rateLimiterTransport.held (r : rateLimiterTransport) : Nat :=
  match r.tokens with
  | none => 0
  | some c => c.len

/-- The states of a limiter of rate `N` in a run: never used (`r.once` not fired, no
channel), or initialised with a channel of capacity `N` holding at most `N` tokens. -/
def inService (N : Int) (r : rateLimiterTransport) : Prop :=
  r.maxRPS = N ∧
    ((r.once = false ∧ r.tokens = none) ∨
      (r.once = true ∧ ∃ k, k ≤ N.toNat ∧ r.tokens = some ⟨N.toNat, k⟩))

/-! ## A burst after an idle second -/

/-- A call whose context is not done, answered with 200 by the next transport. -/
def plainCall : LimiterAction :=
  .call ⟨none, false, fun _ => (some ⟨200, "", 0⟩, none)⟩ ⟨none, none⟩

/-- A timed run of a limiter with `maxRPS = 1` (a tick every second) from the call that
initialises it: that call waits and is admitted on the tick at 1s; the tick at 2s deposits
a token that nobody takes, the tick at 3s is dropped; then a call at 3.5s and, after the
tick at 4s, a call at 4.1s. -/
def burstRun : List TimedAction :=
  [⟨0, plainCall⟩, ⟨1000000000, .tick⟩, ⟨1000000000, plainCall⟩, ⟨2000000000, .tick⟩,
    ⟨3000000000, .tick⟩, ⟨3500000000, plainCall⟩, ⟨4000000000, .tick⟩,
    ⟨4100000000, plainCall⟩]

/-! ## A cancelled call -/

/-- A chain that answers 503 twice and, once the context is cancelled, fails with
`context.Canceled`; the context is cancelled during the pause after attempt 2. -/
def cancelledAfterSecond : Env :=
  ⟨fun n => if n ≤ 2 then (some ⟨503, "", 0⟩, none) else (none, some .canceled),
    fun n => decide (2 ≤ n)⟩

/-! ## Basic facts about traces and the loop -/

/-- The dispatches of a concatenated trace. -/
theorem dispatches_append (xs ys : List Event) :
    dispatches (xs ++ ys) = dispatches xs + dispatches ys := by
  induction xs with
  | nil => simp [dispatches]
  | cons e es ih => cases e <;> simp [dispatches, ih]; omega

/-- The pauses of a concatenated trace. -/
theorem waits_append (xs ys : List Event) : waits (xs ++ ys) = waits xs ++ waits ys := by
  induction xs with
  | nil => simp [waits]
  | cons e es ih => cases e <;> simp [waits, ih]

/-- The bodies sent in a concatenated trace. -/
theorem sentBodies_append (xs ys : List Event) :
    sentBodies (xs ++ ys) = sentBodies xs ++ sentBodies ys := by
  induction xs with
  | nil => simp [sentBodies]
  | cons e es ih => cases e <;> simp [sentBodies, ih]

/-- Closing a body is not a dispatch. -/
theorem dispatches_closeBody (resp : Option Response) : dispatches (closeBody resp) = 0 := by
  cases resp <;> rfl

/-- Closing a body is not a pause. -/
theorem waits_closeBody (resp : Option Response) : waits (closeBody resp) = [] := by
  cases resp <;> rfl

/-- Closing a body sends nothing. -/
theorem sentBodies_closeBody (resp : Option Response) : sentBodies (closeBody resp) = [] := by
  cases resp <;> rfl

/-- The bodies sent in a round that dispatches once, closes and pauses. -/
theorem sentBodies_round (evs : List Event) (a : Nat) (b : Option ReadCloser)
    (resp : Option Response) (err : Option GoError) (d : Duration) (c : Bool) :
    sentBodies (evs ++ [Event.dispatch a b resp err] ++ closeBody resp ++ [.sleep d c]) =
      sentBodies evs ++ [b] := by
  simp [sentBodies_append, sentBodies, sentBodies_closeBody]

/-- A round that returns ends the loop with its result and events. -/
theorem loop_done {t : retryTransport} {env : Env}
    {getBody : Option (Nat → Except GoError (Option ReadCloser))} {attempt : Nat}
    {body : Option ReadCloser} {backoff : Duration} {r : Ret} {evs : List Event}
    (h : iteration t env getBody (attempt + 1) body backoff = .done r evs) :
    loop t env getBody attempt body backoff = (r, evs) := by
  rw [loop]
  split
  · rename_i r1 evs1 h1
    rw [h] at h1
    cases h1
    rfl
  · rename_i b1 k1 evs1 h1
    rw [h] at h1
    cases h1

/-- A round that pauses is followed by the rest of the loop. -/
theorem loop_next {t : retryTransport} {env : Env}
    {getBody : Option (Nat → Except GoError (Option ReadCloser))} {attempt : Nat}
    {body : Option ReadCloser} {backoff : Duration} {body1 : Option ReadCloser}
    {backoff1 : Duration} {evs : List Event}
    (h : iteration t env getBody (attempt + 1) body backoff = .next body1 backoff1 evs) :
    loop t env getBody attempt body backoff =
      ((loop t env getBody (attempt + 1) body1 backoff1).1,
        evs ++ (loop t env getBody (attempt + 1) body1 backoff1).2) := by
  rw [loop]
  split
  · rename_i r1 evs1 h1
    rw [h] at h1
    cases h1
  · rename_i b1 k1 evs1 h1
    rw [h] at h1
    cases h1
    rfl

/-! ## One round of the loop -/

/-- The fresh-body block never dispatches and never pauses; when no provider is called
the body is kept, and a body it leaves in place implies a provider. -/
theorem freshBody_use {getBody : Option (Nat → Except GoError (Option ReadCloser))}
    {attempt : Nat} {body : Option ReadCloser}
    (hgb : 1 < attempt → body ≠ none → ∃ f, getBody = some f ∧ ∃ b, f attempt = .ok b) :
    ∃ body1 evs, freshBody getBody attempt body = .use body1 evs ∧ dispatches evs = 0 ∧
      waits evs = [] ∧ sentBodies evs = [] ∧ (body = none → body1 = none) := by
  unfold freshBody
  by_cases hc : attempt > 1 ∧ body ≠ none
  · obtain ⟨f, hf, b, hb⟩ := hgb hc.1 hc.2
    refine ⟨b, [.getBody attempt (.ok b)], ?_, rfl, rfl, rfl, ?_⟩
    · rw [if_pos hc]
      simp only [hf, hb]
    · intro h0
      exact absurd h0 hc.2
  · exact ⟨body, [], by rw [if_neg hc], rfl, rfl, rfl, fun h => h⟩

/-- A round whose attempt is dispatched, with an outcome that is not retryable, returns
that outcome as it is. -/
theorem iteration_terminal {t : retryTransport} {env : Env}
    {getBody : Option (Nat → Except GoError (Option ReadCloser))} {attempt : Nat}
    {body body1 : Option ReadCloser} {backoff : Duration} {evs : List Event}
    (hf : freshBody getBody attempt body = .use body1 evs)
    (hr : shouldRetry (env.next attempt).1 (env.next attempt).2 = false) :
    iteration t env getBody attempt body backoff =
      .done (.ret (env.next attempt).1 (env.next attempt).2)
        (evs ++ [Event.dispatch attempt body1 (env.next attempt).1 (env.next attempt).2]) := by
  simp [iteration, hf, hr]

/-- A round past the budget whose outcome is retryable closes the response body and
returns `errMaxRetries`. -/
theorem iteration_exhausted {t : retryTransport} {env : Env}
    {getBody : Option (Nat → Except GoError (Option ReadCloser))} {attempt : Nat}
    {body body1 : Option ReadCloser} {backoff : Duration} {evs : List Event}
    (hf : freshBody getBody attempt body = .use body1 evs)
    (hr : shouldRetry (env.next attempt).1 (env.next attempt).2 = true)
    (hm : t.maxRetries < (attempt : Int)) :
    iteration t env getBody attempt body backoff =
      .done (.ret none (some .errMaxRetries))
        (evs ++ [Event.dispatch attempt body1 (env.next attempt).1 (env.next attempt).2]
          ++ closeBody (env.next attempt).1) := by
  simp [iteration, hf, hr, hm]

/-- A round within the budget whose outcome is retryable and carries a positive
Retry-After closes the body, pauses for that duration and keeps the backoff. -/
theorem iteration_retryAfter {env : Env}
    {getBody : Option (Nat → Except GoError (Option ReadCloser))} {attempt : Nat}
    {body body1 : Option ReadCloser} {evs : List Event} (t : retryTransport)
    (backoff : Duration)
    (hf : freshBody getBody attempt body = .use body1 evs)
    (hr : shouldRetry (env.next attempt).1 (env.next attempt).2 = true)
    (hm : (attempt : Int) ≤ t.maxRetries)
    (hra : 0 < getRetryAfter (env.next attempt).1) :
    iteration t env getBody attempt body backoff =
      .next body1 backoff
        (evs ++ [Event.dispatch attempt body1 (env.next attempt).1 (env.next attempt).2]
          ++ closeBody (env.next attempt).1
          ++ [.sleep (getRetryAfter (env.next attempt).1) (env.ctxDone attempt)]) := by
  have hm1 : ¬ (t.maxRetries < (attempt : Int)) := not_lt.mpr hm
  simp [iteration, hf, hr, hm1, hra]

/-- A round within the budget whose outcome is retryable without a positive Retry-After
closes the body, pauses for the backoff, and doubles the backoff up to `maxBackoff`. -/
theorem iteration_backoff {env : Env}
    {getBody : Option (Nat → Except GoError (Option ReadCloser))} {attempt : Nat}
    {body body1 : Option ReadCloser} {evs : List Event} (t : retryTransport)
    (backoff : Duration)
    (hf : freshBody getBody attempt body = .use body1 evs)
    (hr : shouldRetry (env.next attempt).1 (env.next attempt).2 = true)
    (hm : (attempt : Int) ≤ t.maxRetries)
    (hra : getRetryAfter (env.next attempt).1 ≤ 0) :
    iteration t env getBody attempt body backoff =
      .next body1
        (if wrap64 (backoff * 2) > t.maxBackoff then t.maxBackoff else wrap64 (backoff * 2))
        (evs ++ [Event.dispatch attempt body1 (env.next attempt).1 (env.next attempt).2]
          ++ closeBody (env.next attempt).1
          ++ [.sleep backoff (env.ctxDone attempt)]) := by
  have hm1 : ¬ (t.maxRetries < (attempt : Int)) := not_lt.mpr hm
  have hra1 : ¬ (0 < getRetryAfter (env.next attempt).1) := not_lt.mpr hra
  simp [iteration, hf, hr, hm1, hra1]

/-- A round within the budget whose outcome is retryable goes on to the next round after
one dispatch and one pause. -/
theorem iteration_retry {env : Env}
    {getBody : Option (Nat → Except GoError (Option ReadCloser))} {attempt : Nat}
    {body body1 : Option ReadCloser} {evs : List Event} (t : retryTransport)
    (backoff : Duration)
    (hf : freshBody getBody attempt body = .use body1 evs)
    (hr : shouldRetry (env.next attempt).1 (env.next attempt).2 = true)
    (hm : (attempt : Int) ≤ t.maxRetries) :
    ∃ backoff1 d, iteration t env getBody attempt body backoff =
      .next body1 backoff1
        (evs ++ [Event.dispatch attempt body1 (env.next attempt).1 (env.next attempt).2]
          ++ closeBody (env.next attempt).1 ++ [.sleep d (env.ctxDone attempt)]) := by
  by_cases hra : 0 < getRetryAfter (env.next attempt).1
  · exact ⟨_, _, iteration_retryAfter t backoff hf hr hm hra⟩
  · exact ⟨_, _, iteration_backoff t backoff hf hr hm (not_lt.mp hra)⟩

/-- A round that goes on to the next one is within the budget. -/
theorem iteration_next_le {t : retryTransport} {env : Env}
    {getBody : Option (Nat → Except GoError (Option ReadCloser))} {attempt : Nat}
    {body body1 : Option ReadCloser} {backoff backoff1 : Duration} {evs : List Event}
    (h : iteration t env getBody attempt body backoff = .next body1 backoff1 evs) :
    (attempt : Int) ≤ t.maxRetries := by
  by_contra hgt
  have hlt : t.maxRetries < (attempt : Int) := not_le.mp hgt
  unfold iteration at h
  cases hf : freshBody getBody attempt body with
  | fail r evs => simp [hf] at h
  | use b evs =>
    simp only [hf, gt_iff_lt, hlt, decide_True, Bool.or_true, Bool.true_and, if_true] at h
    split at h <;> simp at h

/-- The fresh-body block never dispatches. -/
theorem freshBody_dispatches (getBody : Option (Nat → Except GoError (Option ReadCloser)))
    (attempt : Nat) (body : Option ReadCloser) :
    dispatches (freshBody getBody attempt body).events = 0 := by
  unfold freshBody
  split
  · cases getBody with
    | none => rfl
    | some f =>
      simp only
      cases f attempt <;> rfl
  · rfl

/-- The fresh-body block never pauses. -/
theorem freshBody_waits {getBody : Option (Nat → Except GoError (Option ReadCloser))}
    {attempt : Nat} {body body1 : Option ReadCloser} {evs : List Event}
    (h : freshBody getBody attempt body = .use body1 evs) : waits evs = [] := by
  unfold freshBody at h
  split at h
  · cases getBody with
    | none => simp at h
    | some f =>
      simp only at h
      cases hfa : f attempt with
      | error e => rw [hfa] at h; simp at h
      | ok b =>
        rw [hfa] at h
        simp only [Fresh.use.injEq] at h
        rw [← h.2]
        rfl
  · simp only [Fresh.use.injEq] at h
    rw [← h.2]
    rfl

/-- One round of the loop dispatches at most once. -/
theorem iteration_dispatches_le (t : retryTransport) (env : Env)
    (getBody : Option (Nat → Except GoError (Option ReadCloser))) (attempt : Nat)
    (body : Option ReadCloser) (backoff : Duration) :
    dispatches (iteration t env getBody attempt body backoff).events ≤ 1 := by
  have h0 := freshBody_dispatches getBody attempt body
  unfold iteration
  cases hf : freshBody getBody attempt body with
  | fail r evs =>
    rw [hf] at h0
    simp only [Fresh.events] at h0
    simp [Step.events, h0]
  | use b evs =>
    rw [hf] at h0
    simp only [Fresh.events] at h0
    simp only
    split
    · split <;> simp [Step.events, dispatches_append, dispatches, dispatches_closeBody, h0]
    · split <;> simp [Step.events, dispatches_append, dispatches, dispatches_closeBody, h0]

/-! ## The loop as a whole -/

/-- When every outcome is retryable and the body is absent or its re-acquisition always
succeeds, the loop entered `k` rounds before the last one of the budget dispatches `k + 1` times, pauses `k`
times and returns `errMaxRetries`. -/
theorem loop_exhausted {t : retryTransport} {env : Env}
    {getBody : Option (Nat → Except GoError (Option ReadCloser))}
    (hretry : ∀ n, shouldRetry (env.next n).1 (env.next n).2 = true) :
    ∀ (k attempt : Nat) (body : Option ReadCloser) (backoff : Duration),
      (attempt : Int) + k = t.maxRetries →
      (body ≠ none → ∃ f, getBody = some f ∧ ∀ n, ∃ b, f n = .ok b) →
      (loop t env getBody attempt body backoff).1 = .ret none (some .errMaxRetries) ∧
      dispatches (loop t env getBody attempt body backoff).2 = k + 1 ∧
      (waits (loop t env getBody attempt body backoff).2).length = k := by
  intro k
  induction k with
  | zero =>
    intro attempt body backoff hk hb
    have hfresh : 1 < attempt + 1 → body ≠ none →
        ∃ f, getBody = some f ∧ ∃ b, f (attempt + 1) = .ok b := by
      intro _ hne
      obtain ⟨f, hf, hok⟩ := hb hne
      exact ⟨f, hf, hok _⟩
    obtain ⟨body1, evs, hf, hd, hw, -, -⟩ := freshBody_use hfresh
    have hlt : t.maxRetries < ((attempt + 1 : Nat) : Int) := by push_cast; omega
    rw [loop_done (iteration_exhausted hf (hretry _) hlt)]
    simp [dispatches_append, dispatches, dispatches_closeBody, waits_append, waits,
      waits_closeBody, hd, hw]
  | succ k ih =>
    intro attempt body backoff hk hb
    have hfresh : 1 < attempt + 1 → body ≠ none →
        ∃ f, getBody = some f ∧ ∃ b, f (attempt + 1) = .ok b := by
      intro _ hne
      obtain ⟨f, hf, hok⟩ := hb hne
      exact ⟨f, hf, hok _⟩
    obtain ⟨body1, evs, hf, hd, hw, -, hnone⟩ := freshBody_use hfresh
    have hle : ((attempt + 1 : Nat) : Int) ≤ t.maxRetries := by push_cast; omega
    obtain ⟨backoff1, d, hit⟩ := iteration_retry t backoff hf (hretry _) hle
    have hb1 := fun (hne : body1 ≠ none) => hb (fun h0 => hne (hnone h0))
    have hk1 : ((attempt + 1 : Nat) : Int) + k = t.maxRetries := by push_cast at hk ⊢; omega
    obtain ⟨h1, h2, h3⟩ := ih (attempt + 1) body1 backoff1 hk1 hb1
    rw [loop_next hit]
    refine ⟨h1, ?_, ?_⟩
    · simp [dispatches_append, dispatches, dispatches_closeBody, hd, h2]
    · simp [waits_append, waits, waits_closeBody, hw, h3]

/-- When the rounds before attempt `k` all have retryable outcomes, attempt `k` is within
`maxRetries + 1` and has an outcome that is not retryable, and the body re-acquisitions up
to attempt `k` succeed, the loop entered `j + 1` rounds before the end of attempt `k`
dispatches `j + 1` times, pauses `j` times and returns the outcome of attempt `k`. -/
theorem loop_first_terminal {t : retryTransport} {env : Env}
    {getBody : Option (Nat → Except GoError (Option ReadCloser))} (k : Nat)
    (hk : (k : Int) ≤ t.maxRetries + 1)
    (hretry : ∀ n, 1 ≤ n → n < k → shouldRetry (env.next n).1 (env.next n).2 = true)
    (hterm : shouldRetry (env.next k).1 (env.next k).2 = false) :
    ∀ (j attempt : Nat) (body : Option ReadCloser) (backoff : Duration),
      attempt + j + 1 = k →
      (body ≠ none → ∃ f, getBody = some f ∧ ∀ n, 2 ≤ n → n ≤ k → ∃ b, f n = .ok b) →
      (loop t env getBody attempt body backoff).1 = .ret (env.next k).1 (env.next k).2 ∧
      dispatches (loop t env getBody attempt body backoff).2 = j + 1 ∧
      (waits (loop t env getBody attempt body backoff).2).length = j := by
  intro j
  induction j with
  | zero =>
    intro attempt body backoff hj hb
    have hfresh : 1 < attempt + 1 → body ≠ none →
        ∃ f, getBody = some f ∧ ∃ b, f (attempt + 1) = .ok b := by
      intro h1 hne
      obtain ⟨f, hf, hok⟩ := hb hne
      exact ⟨f, hf, hok _ (by omega) (by omega)⟩
    obtain ⟨body1, evs, hf, hd, hw, -, -⟩ := freshBody_use hfresh
    have hk0 : attempt + 1 = k := by omega
    rw [← hk0] at hterm
    rw [loop_done (iteration_terminal hf hterm), hk0]
    simp [dispatches_append, dispatches, waits_append, waits, hd, hw]
  | succ j ih =>
    intro attempt body backoff hj hb
    have hfresh : 1 < attempt + 1 → body ≠ none →
        ∃ f, getBody = some f ∧ ∃ b, f (attempt + 1) = .ok b := by
      intro h1 hne
      obtain ⟨f, hf, hok⟩ := hb hne
      exact ⟨f, hf, hok _ (by omega) (by omega)⟩
    obtain ⟨body1, evs, hf, hd, hw, -, hnone⟩ := freshBody_use hfresh
    have hle : ((attempt + 1 : Nat) : Int) ≤ t.maxRetries := by
      have : ((attempt + 1 : Nat) : Int) + 1 ≤ (k : Int) := by
        rw [← hj]; push_cast; omega
      omega
    obtain ⟨backoff1, d, hit⟩ :=
      iteration_retry t backoff hf (hretry _ (by omega) (by omega)) hle
    have hb1 := fun (hne : body1 ≠ none) => hb (fun h0 => hne (hnone h0))
    obtain ⟨h1, h2, h3⟩ := ih (attempt + 1) body1 backoff1 (by omega) hb1
    rw [loop_next hit]
    refine ⟨h1, ?_, ?_⟩
    · simp [dispatches_append, dispatches, dispatches_closeBody, hd, h2]
    · simp [waits_append, waits, waits_closeBody, hw, h3]

/-- Whatever the collaborators answer, the loop entered with the counter `attempt`
dispatches at most `maxRetries - attempt + 1` times (once when the budget is spent). -/
theorem loop_dispatches_le (t : retryTransport) (env : Env)
    (getBody : Option (Nat → Except GoError (Option ReadCloser))) :
    ∀ (n attempt : Nat) (body : Option ReadCloser) (backoff : Duration),
      (t.maxRetries - attempt).toNat = n →
      dispatches (loop t env getBody attempt body backoff).2 ≤ n + 1 := by
  intro n
  induction n with
  | zero =>
    intro attempt body backoff hn
    have h1 := iteration_dispatches_le t env getBody (attempt + 1) body backoff
    cases hit : iteration t env getBody (attempt + 1) body backoff with
    | done r evs =>
      rw [loop_done hit]
      rw [hit] at h1
      simpa [Step.events] using h1
    | next b1 k1 evs =>
      have := iteration_next_le hit
      push_cast at this
      omega
  | succ n ih =>
    intro attempt body backoff hn
    have h1 := iteration_dispatches_le t env getBody (attempt + 1) body backoff
    cases hit : iteration t env getBody (attempt + 1) body backoff with
    | done r evs =>
      rw [loop_done hit]
      rw [hit] at h1
      simp only [Step.events] at h1
      show dispatches evs ≤ n + 1 + 1
      omega
    | next b1 k1 evs =>
      rw [loop_next hit]
      rw [hit] at h1
      simp only [Step.events] at h1
      have h2 := ih (attempt + 1) b1 k1 (by push_cast; omega)
      simp only [dispatches_append]
      omega

/-! ## Re-acquiring the body -/

/-- On a later attempt of a request with a body, a provider that answers with a body makes
that body the one in use. -/
theorem freshBody_ok {f : Nat → Except GoError (Option ReadCloser)} {attempt : Nat}
    {body br : Option ReadCloser} (ha : 1 < attempt) (hb : body ≠ none)
    (hf : f attempt = .ok br) :
    freshBody (some f) attempt body = .use br [.getBody attempt (.ok br)] := by
  unfold freshBody
  rw [if_pos ⟨ha, hb⟩]
  simp only [hf]

/-- On a later attempt of a request with a body, a provider that fails ends the call with
its error. -/
theorem freshBody_error {f : Nat → Except GoError (Option ReadCloser)} {attempt : Nat}
    {body : Option ReadCloser} {e : GoError} (ha : 1 < attempt) (hb : body ≠ none)
    (hf : f attempt = .error e) :
    freshBody (some f) attempt body =
      .fail (.ret none (some e)) [.getBody attempt (.error e)] := by
  unfold freshBody
  rw [if_pos ⟨ha, hb⟩]
  simp only [hf]

/-- The first attempt uses the body of the request as it is. -/
theorem freshBody_first (getBody : Option (Nat → Except GoError (Option ReadCloser)))
    (body : Option ReadCloser) : freshBody getBody 1 body = .use body [] := by
  unfold freshBody
  rw [if_neg (by omega)]

/-- When the provider of a request with a body answers with bodies `bs j` on the attempts
before `n` and fails with `e` on attempt `n`, the outcomes before attempt `n` being
retryable and within the budget, the loop entered after a first attempt, `k` rounds before
attempt `n`, dispatches `k` times, each time with the body just acquired, and returns
`(nil, e)`. -/
theorem loop_getBody_error {t : retryTransport} {env : Env}
    {f : Nat → Except GoError (Option ReadCloser)} (n : Nat) (e : GoError)
    (bs : Nat → ReadCloser) (hn : (n : Int) ≤ t.maxRetries + 1)
    (hretry : ∀ j, 1 ≤ j → j < n → shouldRetry (env.next j).1 (env.next j).2 = true)
    (hok : ∀ j, 2 ≤ j → j < n → f j = .ok (some (bs j)))
    (herr : f n = .error e) :
    ∀ (k attempt : Nat) (b : ReadCloser) (backoff : Duration),
      attempt + k + 1 = n → 1 ≤ attempt →
      (loop t env (some f) attempt (some b) backoff).1 = .ret none (some e) ∧
      dispatches (loop t env (some f) attempt (some b) backoff).2 = k ∧
      sentBodies (loop t env (some f) attempt (some b) backoff).2 =
        (List.range k).map (fun i => some (bs (attempt + 1 + i))) := by
  intro k
  induction k with
  | zero =>
    intro attempt b backoff hk ha
    have hf : freshBody (some f) (attempt + 1) (some b) =
        .fail (.ret none (some e)) [.getBody (attempt + 1) (.error e)] :=
      freshBody_error (by omega) (by simp) (by rw [show attempt + 1 = n by omega]; exact herr)
    have hit : iteration t env (some f) (attempt + 1) (some b) backoff =
        .done (.ret none (some e)) [.getBody (attempt + 1) (.error e)] := by
      simp [iteration, hf]
    rw [loop_done hit]
    exact ⟨rfl, rfl, rfl⟩
  | succ k ih =>
    intro attempt b backoff hk ha
    have hf : freshBody (some f) (attempt + 1) (some b) =
        .use (some (bs (attempt + 1))) [.getBody (attempt + 1) (.ok (some (bs (attempt + 1))))] :=
      freshBody_ok (by omega) (by simp) (hok _ (by omega) (by omega))
    have hle : ((attempt + 1 : Nat) : Int) ≤ t.maxRetries := by
      have : ((attempt + 1 : Nat) : Int) + 1 ≤ (n : Int) := by
        rw [← hk]; push_cast; omega
      omega
    obtain ⟨backoff1, d, hit⟩ :=
      iteration_retry t backoff hf (hretry _ (by omega) (by omega)) hle
    obtain ⟨h1, h2, h3⟩ := ih (attempt + 1) (bs (attempt + 1)) backoff1 (by omega) (by omega)
    rw [loop_next hit]
    refine ⟨h1, ?_, ?_⟩
    · simp [dispatches_append, dispatches, dispatches_closeBody, h2]
    · rw [sentBodies_append, sentBodies_round, h3, List.range_succ_eq_map, List.map_cons,
        List.map_map]
      show [some (bs (attempt + 1))] ++ _ = _
      rw [List.singleton_append]
      congr 1
      apply List.map_congr_left
      intro i _
      show some (bs (attempt + 1 + 1 + i)) = some (bs (attempt + 1 + (i + 1)))
      congr 2
      omega

/-! ## Backoff arithmetic -/

/-- A value in the signed 64-bit range is left as it is by `wrap64`. -/
theorem wrap64_of_range {x : Int} (h1 : -2 ^ 63 ≤ x) (h2 : x < 2 ^ 63) : wrap64 x = x := by
  unfold wrap64
  rw [Int.emod_eq_of_lt (by omega) (by omega)]
  omega

/-- Doubling a positive backoff that is at most `m` and whose double is in the 64-bit range
does not wrap, and the clamped double is again positive and at most `m`. -/
theorem double_clamp_range {b m : Int} (hb : 0 < b) (hbm : b ≤ m) (hov : 2 * b < 2 ^ 63) :
    wrap64 (b * 2) = b * 2 ∧ 0 < (if b * 2 > m then m else b * 2) ∧
      (if b * 2 > m then m else b * 2) ≤ m := by
  have hov0 : 2 * b < 9223372036854775808 := by norm_num at hov; omega
  refine ⟨wrap64_of_range (by norm_num; omega) (by norm_num; omega), ?_, ?_⟩
  · split <;> omega
  · split <;> omega

/-- Doubling a backoff that is clamped, and clamping again, gives the clamped double. -/
theorem min_double_clamp {b m : Int} (hb : 0 < b) (hbm : b ≤ m) (j : Nat) :
    min ((if b * 2 > m then m else b * 2) * 2 ^ j) m = min (b * 2 ^ (j + 1)) m := by
  have hp : (1 : Int) ≤ 2 ^ j := one_le_pow₀ (by norm_num)
  have he : b * 2 ^ (j + 1) = b * 2 * 2 ^ j := by ring
  by_cases hc : b * 2 > m
  · rw [if_pos hc, he]
    have h1 : m ≤ m * 2 ^ j := by nlinarith
    have h2 : m ≤ b * 2 * 2 ^ j := by nlinarith
    rw [min_eq_right h1, min_eq_right h2]
  · rw [if_neg hc, he]

/-- When every outcome is retryable with no positive Retry-After, the backoff is positive
and at most `maxBackoff`, and no doubling of a pause overflows, the pauses of the loop
entered `k` rounds before the last one are `min (backoff * 2^j) maxBackoff` for
`j = 0, ..., k - 1`. -/
theorem loop_waits_backoff {t : retryTransport} {env : Env}
    {getBody : Option (Nat → Except GoError (Option ReadCloser))}
    (hretry : ∀ n, shouldRetry (env.next n).1 (env.next n).2 = true)
    (hra : ∀ n, getRetryAfter (env.next n).1 ≤ 0) :
    ∀ (k attempt : Nat) (body : Option ReadCloser) (backoff : Duration),
      (attempt : Int) + k = t.maxRetries →
      (body ≠ none → ∃ f, getBody = some f ∧ ∀ n, ∃ b, f n = .ok b) →
      0 < backoff → backoff ≤ t.maxBackoff →
      (∀ j, j < k → 2 * min (backoff * 2 ^ j) t.maxBackoff < 2 ^ 63) →
      waits (loop t env getBody attempt body backoff).2 =
        (List.range k).map (fun j => min (backoff * 2 ^ j) t.maxBackoff) := by
  intro k
  induction k with
  | zero =>
    intro attempt body backoff hk hb _ _ _
    have hfresh : 1 < attempt + 1 → body ≠ none →
        ∃ f, getBody = some f ∧ ∃ b, f (attempt + 1) = .ok b := by
      intro _ hne
      obtain ⟨f, hf, hok⟩ := hb hne
      exact ⟨f, hf, hok _⟩
    obtain ⟨body1, evs, hf, hd, hw, -, -⟩ := freshBody_use hfresh
    have hlt : t.maxRetries < ((attempt + 1 : Nat) : Int) := by push_cast; omega
    rw [loop_done (iteration_exhausted hf (hretry _) hlt)]
    simp [waits_append, waits, waits_closeBody, hw]
  | succ k ih =>
    intro attempt body backoff hk hb hpos hle hov
    have hfresh : 1 < attempt + 1 → body ≠ none →
        ∃ f, getBody = some f ∧ ∃ b, f (attempt + 1) = .ok b := by
      intro _ hne
      obtain ⟨f, hf, hok⟩ := hb hne
      exact ⟨f, hf, hok _⟩
    obtain ⟨body1, evs, hf, hd, hw, -, hnone⟩ := freshBody_use hfresh
    have hle1 : ((attempt + 1 : Nat) : Int) ≤ t.maxRetries := by push_cast; omega
    have hit := iteration_backoff t backoff hf (hretry _) hle1 (hra _)
    have hov0 : 2 * backoff < 2 ^ 63 := by
      have := hov 0 (by omega)
      rwa [pow_zero, mul_one, min_eq_left hle] at this
    obtain ⟨hwrap, hpos1, hle2⟩ := double_clamp_range hpos hle hov0
    rw [hwrap] at hit
    have hb1 := fun (hne : body1 ≠ none) => hb (fun h0 => hne (hnone h0))
    have hk1 : ((attempt + 1 : Nat) : Int) + k = t.maxRetries := by push_cast at hk ⊢; omega
    have hov1 : ∀ j, j < k →
        2 * min ((if backoff * 2 > t.maxBackoff then t.maxBackoff else backoff * 2) * 2 ^ j)
          t.maxBackoff < 2 ^ 63 := by
      intro j hj
      rw [min_double_clamp hpos hle j]
      exact hov (j + 1) (by omega)
    have h3 := ih (attempt + 1) body1 _ hk1 hb1 hpos1 hle2 hov1
    rw [loop_next hit]
    simp only [waits_append, waits, waits_closeBody, hw, h3, List.nil_append, List.append_nil,
      List.singleton_append, List.range_succ_eq_map, List.map_cons, List.map_map, pow_zero,
      mul_one, min_eq_left hle]
    congr 1
    apply List.map_congr_left
    intro j _
    exact min_double_clamp hpos hle j

/-! ## Facts about time.ParseDuration -/

/-- The character Lean prints for a digit `d` is the ASCII digit `48 + d`. -/
theorem digitChar_toNat (d : Nat) (h : d < 10) : (Nat.digitChar d).toNat = 48 + d := by
  interval_cases d <;> rfl

/-- The value of a concatenated digit string. -/
theorem digitsValue_append (x : Nat) (xs ys : List Char) :
    digitsValue x (xs ++ ys) = digitsValue (digitsValue x xs) ys := by
  simp [digitsValue, List.foldl_append]

/-- Reading more digits never lowers the value. -/
theorem le_digitsValue (ds : List Char) : ∀ x, x ≤ digitsValue x ds := by
  induction ds with
  | nil => intro x; simp [digitsValue]
  | cons c cs ih =>
    intro x
    have := ih (x * 10 + (c.toNat - 48))
    simp only [digitsValue, List.foldl_cons] at this ⊢
    omega

/-- The digits Lean prints for `n` in front of `acc`: a non-empty string of digits whose
value is `n`. -/
theorem toDigitsCore_spec : ∀ (fuel n : Nat) (acc : List Char), n < fuel →
    ∃ pre, Nat.toDigitsCore 10 fuel n acc = pre ++ acc ∧ pre ≠ [] ∧
      (∀ c ∈ pre, isDigit c = true) ∧ ∀ x, digitsValue x pre = x * 10 ^ pre.length + n := by
  intro fuel
  induction fuel with
  | zero => intro n acc h; omega
  | succ fuel ih =>
    intro n acc h
    have hd : n % 10 < 10 := Nat.mod_lt _ (by norm_num)
    have hc := digitChar_toNat (n % 10) hd
    have hdig : isDigit (Nat.digitChar (n % 10)) = true := by
      simp only [isDigit, hc, decide_eq_true_eq]
      omega
    unfold Nat.toDigitsCore
    by_cases h0 : n / 10 = 0
    · simp only [h0, if_true]
      refine ⟨[Nat.digitChar (n % 10)], rfl, by simp, ?_, ?_⟩
      · intro c hc1
        simp only [List.mem_singleton] at hc1
        rw [hc1]; exact hdig
      · intro x
        simp only [digitsValue, List.foldl_cons, List.foldl_nil, hc, List.length_singleton,
          pow_one]
        omega
    · simp only [h0, if_false]
      obtain ⟨pre, hpre, -, hall, hval⟩ := ih (n / 10) (Nat.digitChar (n % 10) :: acc) (by omega)
      refine ⟨pre ++ [Nat.digitChar (n % 10)], by simp [hpre], by simp, ?_, ?_⟩
      · intro c hc1
        rcases List.mem_append.mp hc1 with h1 | h1
        · exact hall c h1
        · simp only [List.mem_singleton] at h1
          rw [h1]; exact hdig
      · intro x
        rw [digitsValue_append, hval x]
        simp only [digitsValue, List.foldl_cons, List.foldl_nil, hc, List.length_append,
          List.length_singleton, pow_succ]
        have := Nat.div_add_mod n 10
        have e : (x * 10 ^ pre.length + n / 10) * 10 = x * (10 ^ pre.length * 10) + (n / 10) * 10 := by
          ring
        omega

/-- On a string of digits followed by something that is not a digit, `leadingInt` gives
the value of the digits and the rest, provided the value is at most `2^63`. -/
theorem leadingIntFrom_digits : ∀ (ds : List Char) (x : Nat) (rest : List Char),
    (∀ c ∈ ds, isDigit c = true) → (∀ c, rest.head? = some c → isDigit c = false) →
    digitsValue x ds ≤ 2 ^ 63 →
    leadingIntFrom x (ds ++ rest) = some (digitsValue x ds, rest) := by
  intro ds
  induction ds with
  | nil =>
    intro x rest _ hrest _
    cases rest with
    | nil => rfl
    | cons c cs =>
      have := hrest c rfl
      simp [leadingIntFrom, this, digitsValue]
  | cons d ds ih =>
    intro x rest hall hrest hv
    have hd : isDigit d = true := hall d (by simp)
    have hv1 : digitsValue (x * 10 + (d.toNat - 48)) ds ≤ 2 ^ 63 := hv
    have hy := le_digitsValue ds (x * 10 + (d.toNat - 48))
    have hx : ¬ x > 2 ^ 63 / 10 := by
      have : x * 10 ≤ 2 ^ 63 := by omega
      have := (Nat.le_div_iff_mul_le (by norm_num : 0 < 10)).mpr this
      omega
    have hy1 : ¬ (x * 10 + (d.toNat - 48) > 2 ^ 63) := by omega
    have := ih (x * 10 + (d.toNat - 48)) rest (fun c hc => hall c (by simp [hc])) hrest hv1
    show leadingIntFrom x (d :: (ds ++ rest)) = _
    rw [leadingIntFrom]
    simp only [hd, Bool.not_true, Bool.false_eq_true, if_false, hx, hy1, this]
    rfl

/-- A digit has a code between 48 and 57. -/
theorem isDigit_toNat {c : Char} (h : isDigit c = true) : 48 ≤ c.toNat ∧ c.toNat ≤ 57 := by
  simpa [isDigit] using h

/-- A non-empty string of digits followed by `s` parses to that many seconds, provided the
nanoseconds fit a duration. -/
theorem parseDurationChars_seconds (ds : List Char) (hne : ds ≠ [])
    (hall : ∀ c ∈ ds, isDigit c = true) (hv : digitsValue 0 ds * 10 ^ 9 < 2 ^ 63) :
    parseDurationChars (ds ++ ['s']) = .ok ((digitsValue 0 ds * 10 ^ 9 : Nat) : Int) := by
  cases ds with
  | nil => exact absurd rfl hne
  | cons c cs =>
    have hc : isDigit c = true := hall c (by simp)
    have hcn := isDigit_toNat hc
    have hminus : c ≠ '-' := by
      intro h; rw [h] at hcn; revert hcn; decide
    have hplus : c ≠ '+' := by
      intro h; rw [h] at hcn; revert hcn; decide
    have hV : digitsValue 0 (c :: cs) ≤ 2 ^ 63 := by
      have : digitsValue 0 (c :: cs) * 1 ≤ digitsValue 0 (c :: cs) * 10 ^ 9 :=
        Nat.mul_le_mul_left _ (by norm_num)
      omega
    have hlead : leadingInt (c :: (cs ++ ['s'])) = some (digitsValue 0 (c :: cs), ['s']) := by
      have := leadingIntFrom_digits (c :: cs) 0 ['s'] hall
        (by intro c hc; simp at hc; rw [← hc]; decide) hV
      simpa [leadingInt] using this
    have hq : ¬ (digitsValue 0 (c :: cs) > 2 ^ 63 / 1000000000) := by
      have := (Nat.le_div_iff_mul_le (by norm_num : 0 < 1000000000)).mpr
        (show digitsValue 0 (c :: cs) * 1000000000 ≤ 2 ^ 63 by norm_num at hv ⊢; omega)
      omega
    have hscale : scaleUnit (digitsValue 0 (c :: cs)) 0 (Float64.ofNat 1) ['s'] =
        .ok (digitsValue 0 (c :: cs) * 1000000000) := by
      have hu : unitMap ['s'] = some 1000000000 := rfl
      unfold scaleUnit
      rw [if_neg (by simp), hu]
      simp only
      rw [if_neg hq, if_neg (by omega)]
    have hgroup : parseGroup (c :: (cs ++ ['s'])) =
        .ok (digitsValue 0 (c :: cs) * 1000000000, []) := by
      have hfrac : fractionPart ['s'] = (0, Float64.ofNat 1, ['s'], false) := rfl
      have hspan : spanUnit ['s'] = (['s'], []) := rfl
      rw [parseGroup]
      simp only [hc, hlead, hfrac, hspan, hscale]
      simp
    have hmod : (0 + digitsValue 0 (c :: cs) * 1000000000) % 2 ^ 64 =
        digitsValue 0 (c :: cs) * 1000000000 := by
      rw [Nat.zero_add]
      exact Nat.mod_eq_of_lt (by norm_num at hv ⊢; omega)
    have hd1 : ¬ (digitsValue 0 (c :: cs) * 1000000000 > 2 ^ 63) := by
      norm_num at hv ⊢; omega
    have hunits : parseUnits (cs.length + 1 + 1) (c :: (cs ++ ['s'])) 0 =
        .ok (digitsValue 0 (c :: cs) * 1000000000) := by
      rw [parseUnits, hgroup]
      simp only
      rw [hmod, if_neg hd1, parseUnits]
    have hd2 : ¬ (digitsValue 0 (c :: cs) * 1000000000 > 2 ^ 63 - 1) := by
      norm_num at hv ⊢; omega
    have hne0 : ¬ (c :: (cs ++ ['s']) = ['0']) := by simp
    have hstrip : stripSign (c :: cs ++ ['s']) = c :: (cs ++ ['s']) := by
      simp [stripSign, hminus, hplus]
    have hlen : (c :: (cs ++ ['s'])).length = cs.length + 1 + 1 := by simp
    have hhead : ¬ ((c :: cs ++ ['s']).head? = some '-') := by simp [hminus]
    unfold parseDurationChars
    rw [hstrip, if_neg hne0, if_neg (by simp), hlen, hunits]
    simp only
    rw [if_neg hhead, if_neg hd2]
    norm_num

/-- The decimal digits of a natural number, as Lean prints it, are a non-empty string of
digits whose value is the number. -/
theorem toDigits_spec (n : Nat) :
    Nat.toDigits 10 n ≠ [] ∧ (∀ c ∈ Nat.toDigits 10 n, isDigit c = true) ∧
      digitsValue 0 (Nat.toDigits 10 n) = n := by
  obtain ⟨pre, hpre, hne, hall, hval⟩ := toDigitsCore_spec (n + 1) n [] (by omega)
  have h : Nat.toDigits 10 n = pre := by
    simp [Nat.toDigits, hpre]
  rw [h]
  refine ⟨hne, hall, ?_⟩
  rw [hval 0]
  omega

/-- A whole number of seconds within the range of a duration, written in decimal and
followed by `s`, parses to that many seconds. -/
theorem ParseDuration_seconds (n : Nat) (hrep : n * 10 ^ 9 < 2 ^ 63) :
    ParseDuration (toString n ++ "s") = .ok ((n : Int) * Second) := by
  obtain ⟨hne, hall, hval⟩ := toDigits_spec n
  have hdata : (toString n ++ "s").data = Nat.toDigits 10 n ++ ['s'] := by
    simp [toString, Nat.repr, String.data_append, List.asString]
  unfold ParseDuration
  rw [hdata, parseDurationChars_seconds _ hne hall (by rw [hval]; exact hrep), hval]
  simp [Second, Millisecond, Microsecond, Nanosecond]

/-- A response whose Retry-After header is a positive whole number of seconds within the
range of a duration gives that many seconds. -/
theorem getRetryAfter_seconds (r : Response) (n : Nat) (hrep : n * 10 ^ 9 < 2 ^ 63)
    (hhdr : r.RetryAfter = toString n) : getRetryAfter (some r) = (n : Int) * Second := by
  have hne : r.RetryAfter ≠ "" := by
    rw [hhdr]
    intro h
    have h1 := congrArg String.data h
    have h2 := (toDigits_spec n).1
    simp [toString, Nat.repr, List.asString] at h1
    exact h2 h1
  unfold getRetryAfter
  simp only [hne, ne_eq, not_false_eq_true, if_true]
  rw [hhdr, ParseDuration_seconds n hrep]

set_option maxRecDepth 100000 in
/-- The fraction of a unit is computed in `float64`, as in Go: in `0.9999999999999999ns`
the product `9999999999999999 * (1 / 10^16)` is rounded to 1, so the string is one
nanosecond, where the exact quotient would give none. -/
theorem ParseDuration_fraction_float64 :
    ParseDuration ("0.9999999999999999n" ++ "s") = .ok 1 ∧
    getRetryAfter (some ⟨429, "0.9999999999999999n", 0⟩) = 1 := by
  refine ⟨by rfl, by rfl⟩

/-! ## Strings that do not parse -/

/-- What `leadingInt` leaves is no longer than its input, and it consumes only digits. -/
theorem leadingIntFrom_rest : ∀ (s : List Char) (x v : Nat) (r : List Char),
    leadingIntFrom x s = some (v, r) →
    r.length ≤ s.length ∧ ∀ c ∈ s, isDigit c = true ∨ c ∈ r := by
  intro s
  induction s with
  | nil =>
    intro x v r h
    simp [leadingIntFrom] at h
    simp [h.2]
  | cons c cs ih =>
    intro x v r h
    rw [leadingIntFrom] at h
    by_cases hc : isDigit c = true
    · simp only [hc, Bool.not_true, Bool.false_eq_true, if_false] at h
      split at h
      · cases h
      · split at h
        · cases h
        · obtain ⟨h1, h2⟩ := ih _ _ _ h
          refine ⟨by simp; omega, ?_⟩
          intro a ha
          rcases List.mem_cons.mp ha with h3 | h3
          · left; rw [h3]; exact hc
          · exact h2 a h3
    · simp only [hc, Bool.not_false, if_true, Option.some.injEq, Prod.mk.injEq] at h
      rw [← h.2]
      exact ⟨le_refl _, fun a ha => Or.inr ha⟩

/-- What `leadingFraction` leaves is no longer than its input, and it consumes only digits. -/
theorem leadingFractionFrom_rest : ∀ (s : List Char) (x : Nat) (scale : Float64) (o : Bool),
    (leadingFractionFrom x scale o s).2.2.length ≤ s.length ∧
      ∀ c ∈ s, isDigit c = true ∨ c ∈ (leadingFractionFrom x scale o s).2.2 := by
  intro s
  induction s with
  | nil => intro x scale o; simp [leadingFractionFrom]
  | cons c cs ih =>
    intro x scale o
    have hstep : ∀ (x1 : Nat) (scale1 : Float64) (o1 : Bool), isDigit c = true →
        (leadingFractionFrom x1 scale1 o1 cs).2.2.length ≤ (c :: cs).length ∧
        ∀ a ∈ c :: cs, isDigit a = true ∨ a ∈ (leadingFractionFrom x1 scale1 o1 cs).2.2 := by
      intro x1 scale1 o1 hc
      obtain ⟨h1, h2⟩ := ih x1 scale1 o1
      refine ⟨by simp; omega, ?_⟩
      intro a ha
      rcases List.mem_cons.mp ha with h3 | h3
      · left; rw [h3]; exact hc
      · exact h2 a h3
    rw [leadingFractionFrom]
    by_cases hc : isDigit c = true
    · simp only [hc, Bool.not_true, Bool.false_eq_true, if_false]
      split
      · exact hstep _ _ _ hc
      · split
        · exact hstep _ _ _ hc
        · split
          · exact hstep _ _ _ hc
          · exact hstep _ _ _ hc
    · simp only [hc, Bool.not_false, if_true]
      exact ⟨le_refl _, fun a ha => Or.inr ha⟩

/-- The fraction block consumes only a period and digits. -/
theorem fractionPart_rest (s : List Char) :
    (fractionPart s).2.2.1.length ≤ s.length ∧
      ∀ c ∈ s, c = '.' ∨ isDigit c = true ∨ c ∈ (fractionPart s).2.2.1 := by
  unfold fractionPart
  split
  · rename_i s2
    obtain ⟨h1, h2⟩ := leadingFractionFrom_rest s2 0 (Float64.ofNat 1) false
    refine ⟨by simp [leadingFraction]; omega, ?_⟩
    intro a ha
    rcases List.mem_cons.mp ha with h3 | h3
    · exact Or.inl h3
    · exact Or.inr (h2 a h3)
  · exact ⟨le_refl _, fun a ha => Or.inr (Or.inr ha)⟩

/-- The unit scan splits its input in two. -/
theorem spanUnit_rest : ∀ (s : List Char),
    (spanUnit s).1.length + (spanUnit s).2.length = s.length ∧
      ∀ c ∈ s, c ∈ (spanUnit s).1 ∨ c ∈ (spanUnit s).2 := by
  intro s
  induction s with
  | nil => simp [spanUnit]
  | cons c cs ih =>
    rw [spanUnit]
    split
    · exact ⟨by simp, fun a ha => Or.inr ha⟩
    · obtain ⟨h1, h2⟩ := ih
      refine ⟨by simp; omega, ?_⟩
      intro a ha
      rcases List.mem_cons.mp ha with h3 | h3
      · left; rw [h3]; simp
      · rcases h2 a h3 with h4 | h4
        · left; simp [h4]
        · right; exact h4

/-- A known unit is made of unit letters. -/
theorem unitMap_some (u : List Char) (n : Nat) (h : unitMap u = some n) :
    ∀ c ∈ u, c ∈ ['n', 'u', 'µ', 'μ', 'm', 's', 'h'] := by
  unfold unitMap at h
  split at h <;> first | decide | cases h

/-- A unit that is accepted is not empty and is a key of `unitMap`. -/
theorem scaleUnit_ok {v f : Nat} {scale : Float64} {u : List Char} {w : Nat}
    (h : scaleUnit v f scale u = .ok w) : u.length ≠ 0 ∧ ∃ n, unitMap u = some n := by
  unfold scaleUnit at h
  split at h
  · cases h
  · rename_i hu
    refine ⟨hu, ?_⟩
    cases hm : unitMap u with
    | none => rw [hm] at h; cases h
    | some n => exact ⟨n, rfl⟩

/-- A round of the parsing loop that succeeds consumes at least one character, and
consumes only characters of duration strings. -/
theorem parseGroup_ok {s : List Char} {v : Nat} {rest : List Char}
    (h : parseGroup s = .ok (v, rest)) :
    rest.length < s.length ∧ ∀ c ∈ s, durationChar c = true ∨ c ∈ rest := by
  cases s with
  | nil => simp [parseGroup] at h
  | cons c cs =>
    rw [parseGroup] at h
    split at h
    · cases h
    · cases hl : leadingInt (c :: cs) with
      | none => rw [hl] at h; cases h
      | some p =>
        obtain ⟨v1, s1⟩ := p
        rw [hl] at h
        simp only at h
        split at h
        · cases h
        · cases hs : scaleUnit v1 (fractionPart s1).1 (fractionPart s1).2.1
              (spanUnit (fractionPart s1).2.2.1).1 with
          | error e => rw [hs] at h; cases h
          | ok w =>
            rw [hs] at h
            simp only [Except.ok.injEq, Prod.mk.injEq] at h
            obtain ⟨hu0, n, hun⟩ := scaleUnit_ok hs
            obtain ⟨hi1, hi2⟩ := leadingIntFrom_rest (c :: cs) 0 v1 s1 hl
            obtain ⟨hf1, hf2⟩ := fractionPart_rest s1
            obtain ⟨hp1, hp2⟩ := spanUnit_rest (fractionPart s1).2.2.1
            have hum := unitMap_some _ n hun
            rw [← h.2]
            refine ⟨by omega, ?_⟩
            intro a ha
            rcases hi2 a ha with h1 | h1
            · left; simp [durationChar, h1]
            · rcases hf2 a h1 with h2 | h2 | h2
              · left; simp [durationChar, h2]
              · left; simp [durationChar, h2]
              · rcases hp2 a h2 with h3 | h3
                · left
                  have := hum a h3
                  simp only [durationChar, Bool.or_eq_true, decide_eq_true_eq]
                  exact Or.inr this
                · right; exact h3

/-- The unit block never reports a lack of rounds. -/
theorem scaleUnit_ne_fuel (v f : Nat) (scale : Float64) (u : List Char) :
    scaleUnit v f scale u ≠ .error .fuel := by
  unfold scaleUnit
  split
  · simp
  · split
    · simp
    · split
      · simp
      · split
        · split <;> simp
        · simp

/-- A round of the parsing loop never reports a lack of rounds. -/
theorem parseGroup_ne_fuel (s : List Char) : parseGroup s ≠ .error .fuel := by
  cases s with
  | nil => simp [parseGroup]
  | cons c cs =>
    rw [parseGroup]
    split
    · simp
    · split
      · simp
      · split
        · simp
        · rename_i v s1 _ _
          have := scaleUnit_ne_fuel v (fractionPart s1).1 (fractionPart s1).2.1
            (spanUnit (fractionPart s1).2.2.1).1
          split
          · rename_i e he
            intro h
            simp only [Except.error.injEq] at h
            rw [h] at he
            exact this he
          · simp

/-- The parsing loop is given enough rounds: with at least as many rounds as characters it
never stops for lack of rounds. -/
theorem parseUnits_fuel : ∀ (fuel : Nat) (s : List Char) (d : Nat), s.length ≤ fuel →
    parseUnits fuel s d ≠ .error .fuel := by
  intro fuel
  induction fuel with
  | zero =>
    intro s d h
    cases s with
    | nil => simp [parseUnits]
    | cons c cs => simp at h
  | succ fuel ih =>
    intro s d h
    cases s with
    | nil => simp [parseUnits]
    | cons c cs =>
      rw [parseUnits]
      cases hg : parseGroup (c :: cs) with
      | error e =>
        simp only
        intro he
        simp only [Except.error.injEq] at he
        rw [he] at hg
        exact parseGroup_ne_fuel _ hg
      | ok p =>
        obtain ⟨v, rest⟩ := p
        simp only
        obtain ⟨h1, -⟩ := parseGroup_ok hg
        split
        · simp
        · exact ih rest _ (by simp at h h1; omega)

/-- A string that contains a character no duration string is made of does not parse. -/
theorem parseUnits_foreign : ∀ (fuel : Nat) (s : List Char) (d : Nat),
    (∃ c ∈ s, durationChar c = false) → ∃ e, parseUnits fuel s d = .error e := by
  intro fuel
  induction fuel with
  | zero =>
    intro s d h
    cases s with
    | nil => obtain ⟨c, hc, -⟩ := h; simp at hc
    | cons c cs => exact ⟨.fuel, by simp [parseUnits]⟩
  | succ fuel ih =>
    intro s d h
    cases s with
    | nil => obtain ⟨c, hc, -⟩ := h; simp at hc
    | cons c cs =>
      rw [parseUnits]
      cases hg : parseGroup (c :: cs) with
      | error e => exact ⟨e, rfl⟩
      | ok p =>
        obtain ⟨v, rest⟩ := p
        simp only
        obtain ⟨-, h2⟩ := parseGroup_ok hg
        obtain ⟨a, ha, hbad⟩ := h
        split
        · exact ⟨_, rfl⟩
        · apply ih rest _
          rcases h2 a ha with h3 | h3
          · rw [h3] at hbad; cases hbad
          · exact ⟨a, h3, hbad⟩

/-- A string that does not begin with a digit or a period does not parse. -/
theorem parseUnits_head (fuel : Nat) (c : Char) (cs : List Char) (d : Nat)
    (h : ¬ (c = '.' ∨ isDigit c = true)) : ∃ e, parseUnits fuel (c :: cs) d = .error e := by
  cases fuel with
  | zero => exact ⟨.fuel, by simp [parseUnits]⟩
  | succ fuel =>
    refine ⟨.invalid, ?_⟩
    rw [parseUnits, parseGroup]
    simp [h]

/-- `time.ParseDuration` fails on a string that, after its sign, contains a character no
duration string is made of, or does not begin with a digit or a period. -/
theorem parseDurationChars_error (s : List Char) (h0 : stripSign s ≠ ['0'])
    (h : (∃ c ∈ stripSign s, durationChar c = false) ∨
      ∀ c, (stripSign s).head? = some c → ¬ (c = '.' ∨ isDigit c = true)) :
    ∃ e, parseDurationChars s = .error e := by
  unfold parseDurationChars
  rw [if_neg h0]
  split
  · exact ⟨_, rfl⟩
  · have hu : ∃ e, parseUnits (stripSign s).length (stripSign s) 0 = .error e := by
      rcases h with h | h
      · exact parseUnits_foreign _ _ _ h
      · cases hs : stripSign s with
        | nil => rename_i hne; exact absurd hs hne
        | cons c cs =>
          rw [hs] at h
          exact parseUnits_head _ c cs 0 (h c rfl)
    obtain ⟨e, he⟩ := hu
    rw [he]
    exact ⟨e, rfl⟩

/-- Appending a character to a non-empty string commutes with dropping the sign. -/
theorem stripSign_append (v : List Char) (hv : v ≠ []) (x : Char) :
    stripSign (v ++ [x]) = stripSign v ++ [x] := by
  cases v with
  | nil => exact absurd rfl hv
  | cons c cs =>
    simp only [List.cons_append, stripSign]
    split <;> rfl

/-! ## The call always returns -/

/-- When a body is only ever present together with a provider, the fresh-body block either
goes on, keeping that property, or ends the call with the error of the provider. -/
theorem freshBody_cases {getBody : Option (Nat → Except GoError (Option ReadCloser))}
    (attempt : Nat) {body : Option ReadCloser}
    (h : body ≠ none → getBody.isSome = true) :
    (∃ body1 evs, freshBody getBody attempt body = .use body1 evs ∧
      (body1 ≠ none → getBody.isSome = true)) ∨
    (∃ e evs, freshBody getBody attempt body = .fail (.ret none (some e)) evs) := by
  unfold freshBody
  split
  · rename_i hc
    cases hg : getBody with
    | none =>
      have := h hc.2
      rw [hg] at this
      cases this
    | some f =>
      simp only
      cases f attempt with
      | error e => exact Or.inr ⟨e, _, rfl⟩
      | ok br => exact Or.inl ⟨br, _, rfl, fun _ => rfl⟩
  · exact Or.inl ⟨body, [], rfl, h⟩

/-- When a body is only ever present together with a provider, a round of the loop that
returns gives a `(response, error)` pair, and a round that goes on keeps the property. -/
theorem iteration_no_panic (t : retryTransport) (env : Env)
    {getBody : Option (Nat → Except GoError (Option ReadCloser))} (attempt : Nat)
    {body : Option ReadCloser} (backoff : Duration)
    (h : body ≠ none → getBody.isSome = true) :
    (∀ r evs, iteration t env getBody attempt body backoff = .done r evs →
      ∃ resp err, r = .ret resp err) ∧
    (∀ body1 backoff1 evs, iteration t env getBody attempt body backoff =
      .next body1 backoff1 evs → body1 ≠ none → getBody.isSome = true) := by
  unfold iteration
  rcases freshBody_cases attempt h with ⟨body1, evs1, hf, hb1⟩ | ⟨e, evs1, hf⟩
  · rw [hf]
    simp only
    constructor
    · intro r evs hit
      split at hit
      · split at hit
        · simp only [Step.done.injEq] at hit
          exact ⟨_, _, hit.1.symm⟩
        · simp only [Step.done.injEq] at hit
          exact ⟨_, _, hit.1.symm⟩
      · split at hit <;> cases hit
    · intro b1 k1 evs hit
      split at hit
      · split at hit <;> cases hit
      · split at hit
        · simp only [Step.next.injEq] at hit
          rw [← hit.1]
          exact hb1
        · simp only [Step.next.injEq] at hit
          rw [← hit.1]
          exact hb1
  · rw [hf]
    simp only
    constructor
    · intro r evs hit
      simp only [Step.done.injEq] at hit
      exact ⟨_, _, hit.1.symm⟩
    · intro b1 k1 evs hit
      cases hit

/-- Whatever the collaborators answer, the loop entered with a body that is only present
together with a provider returns a `(response, error)` pair. -/
theorem loop_returns (t : retryTransport) (env : Env)
    (getBody : Option (Nat → Except GoError (Option ReadCloser))) :
    ∀ (n attempt : Nat) (body : Option ReadCloser) (backoff : Duration),
      (t.maxRetries - attempt).toNat = n → (body ≠ none → getBody.isSome = true) →
      ∃ resp err, (loop t env getBody attempt body backoff).1 = .ret resp err := by
  intro n
  induction n with
  | zero =>
    intro attempt body backoff hn hb
    obtain ⟨h1, -⟩ := iteration_no_panic t env (attempt + 1) backoff hb
    cases hit : iteration t env getBody (attempt + 1) body backoff with
    | done r evs =>
      rw [loop_done hit]
      exact h1 r evs hit
    | next b1 k1 evs =>
      have := iteration_next_le hit
      push_cast at this
      omega
  | succ n ih =>
    intro attempt body backoff hn hb
    obtain ⟨h1, h2⟩ := iteration_no_panic t env (attempt + 1) backoff hb
    cases hit : iteration t env getBody (attempt + 1) body backoff with
    | done r evs =>
      rw [loop_done hit]
      exact h1 r evs hit
    | next b1 k1 evs =>
      rw [loop_next hit]
      exact ih (attempt + 1) b1 k1 (by push_cast; omega) (h2 b1 k1 evs hit)

/-! ## Facts about the rate limiter -/

/-- For a rate between 1 and `10^9` the period of the ticker is positive. -/
theorem interval_pos {n : Int} (h0 : 0 < n) (h1 : n ≤ 1000000000) : 0 < Second / n := by
  have hs : Second = 1000000000 := by decide
  rw [hs]
  have h2 : (1 : Int) ≤ 1000000000 / n :=
    Int.le_ediv_of_mul_le h0 (by rw [one_mul]; exact h1)
  exact lt_of_lt_of_le Int.one_pos h2

/-- An enabled limiter is initialised without panic exactly when the period of its ticker
is positive; the channel it gets is empty, of capacity `maxRPS`. -/
theorem init_enabled (r : rateLimiterTransport) (h0 : 0 < r.maxRPS) :
    (r.init.panicked = false ↔ 0 < Second / r.maxRPS) ∧
    r.init.limiter = ⟨r.maxRPS, r.once, some ⟨r.maxRPS.toNat, 0⟩⟩ := by
  unfold rateLimiterTransport.init NewTicker
  rw [if_neg (not_le.mpr h0)]
  by_cases hd : Second / r.maxRPS ≤ 0
  · rw [if_pos hd]
    exact ⟨⟨fun h => (by cases h), fun h => absurd h (not_lt.mpr hd)⟩, rfl⟩
  · rw [if_neg hd]
    exact ⟨⟨fun _ => not_le.mp hd, fun _ => rfl⟩, rfl⟩

/-- What `init` leaves of an enabled limiter whose ticker has a positive period. -/
theorem init_ok (N : Int) (o : Bool) (tk : Option Chan) (hN : 0 < N)
    (hd : 0 < Second / N) :
    (⟨N, o, tk⟩ : rateLimiterTransport).init =
      ⟨⟨N, o, some ⟨N.toNat, 0⟩⟩, [.makeChan N.toNat, .newTicker (Second / N)], false⟩ := by
  unfold rateLimiterTransport.init NewTicker
  rw [if_neg (not_le.mpr hN), if_neg (not_le.mpr hd)]

/-- What `init` leaves of an enabled limiter whose ticker has no positive period: the
channel is made, then `time.NewTicker` panics. -/
theorem init_panic (N : Int) (o : Bool) (tk : Option Chan) (hN : 0 < N)
    (hd : Second / N ≤ 0) :
    (⟨N, o, tk⟩ : rateLimiterTransport).init =
      ⟨⟨N, o, some ⟨N.toNat, 0⟩⟩, [.makeChan N.toNat], true⟩ := by
  unfold rateLimiterTransport.init NewTicker
  rw [if_neg (not_le.mpr hN), if_pos hd]

/-- A tick on a limiter that was never used does nothing: there is no ticker yet. -/
theorem limiterStep_tick_fresh (N : Int) :
    limiterStep ⟨N, false, none⟩ .tick = (⟨N, false, none⟩, false) := rfl

/-- A tick on an initialised limiter deposits a token unless the channel is full. -/
theorem limiterStep_tick (N : Int) (cap k : Nat) :
    limiterStep ⟨N, true, some ⟨cap, k⟩⟩ .tick =
      (⟨N, true, some ⟨cap, if k < cap then k + 1 else k⟩⟩, false) := by
  simp only [limiterStep, Option.map, Chan.trySend]
  split <;> rfl

/-- The first call on an enabled limiter initialises it and is not admitted: the channel
is empty. -/
theorem limiterStep_call_fresh (N : Int) (env : LimiterEnv) (req : Request) (hN : 0 < N) :
    limiterStep ⟨N, false, none⟩ (.call env req) = (⟨N, true, some ⟨N.toNat, 0⟩⟩, false) := by
  by_cases hd : 0 < Second / N
  · have hi := init_ok N false none hN hd
    simp only [limiterStep, rateLimiterTransport.RoundTrip, Bool.false_eq_true, if_false, hi,
      rateLimiterTransport.throttle, hN, gt_iff_lt, if_true, Option.bind, Chan.tryRecv]
    cases env.ctxErr <;> simp [dispatched]
  · have hi := init_panic N false none hN (not_lt.mp hd)
    simp only [limiterStep, rateLimiterTransport.RoundTrip, Bool.false_eq_true, if_false, hi,
      if_true, dispatched]

/-- A call on an initialised, enabled limiter: when it is admitted the channel held a
token and holds one less afterwards; when it is not, the limiter is left as it was. -/
theorem limiterStep_call (N : Int) (cap k : Nat) (env : LimiterEnv) (req : Request)
    (hN : 0 < N) :
    ((limiterStep ⟨N, true, some ⟨cap, k⟩⟩ (.call env req)).2 = true →
      0 < k ∧ (limiterStep ⟨N, true, some ⟨cap, k⟩⟩ (.call env req)).1 =
        ⟨N, true, some ⟨cap, k - 1⟩⟩) ∧
    ((limiterStep ⟨N, true, some ⟨cap, k⟩⟩ (.call env req)).2 = false →
      (limiterStep ⟨N, true, some ⟨cap, k⟩⟩ (.call env req)).1 =
        ⟨N, true, some ⟨cap, k⟩⟩) := by
  simp only [limiterStep, rateLimiterTransport.RoundTrip, if_true,
    rateLimiterTransport.throttle, hN, gt_iff_lt, Option.bind, Chan.tryRecv]
  by_cases hk : 0 < k
  · cases env.ctxErr with
    | none => simp [hk, dispatched]
    | some e => cases env.pickCtx <;> simp [hk, dispatched]
  · cases env.ctxErr with
    | none => simp [hk, dispatched]
    | some e => simp [hk, dispatched]

/-- A step of a run keeps the limiter in service, and the tokens it holds afterwards, plus
one when a call was admitted, are at most those it held, plus one when the step is a
tick. -/
theorem limiterStep_inService (N : Int) (hN : 0 < N) (r : rateLimiterTransport) (a : LimiterAction) (h : inService N r) :
    inService N (limiterStep r a).1 ∧
      (limiterStep r a).1.held + (if (limiterStep r a).2 = true then 1 else 0) ≤
        r.held + (if a.isTick = true then 1 else 0) := by
  obtain ⟨m, o, tk⟩ := r
  obtain ⟨hm, hfresh | hready⟩ := h
  · simp only at hm hfresh
    obtain ⟨ho, ht⟩ := hfresh
    subst hm ho ht
    cases a with
    | tick =>
      rw [limiterStep_tick_fresh]
      exact ⟨⟨rfl, Or.inl ⟨rfl, rfl⟩⟩, by simp [rateLimiterTransport.held]⟩
    | call env req =>
      rw [limiterStep_call_fresh m env req hN]
      exact ⟨⟨rfl, Or.inr ⟨rfl, 0, Nat.zero_le _, rfl⟩⟩, by simp [rateLimiterTransport.held]⟩
  · simp only at hm hready
    obtain ⟨ho, k, hk, ht⟩ := hready
    subst hm ho ht
    cases a with
    | tick =>
      rw [limiterStep_tick]
      refine ⟨⟨rfl, Or.inr ⟨rfl, _, ?_, rfl⟩⟩, ?_⟩
      · split <;> omega
      · simp only [rateLimiterTransport.held, LimiterAction.isTick, Bool.false_eq_true,
          if_false, if_true]
        split <;> omega
    | call env req =>
      obtain ⟨h1, h2⟩ := limiterStep_call m m.toNat k env req hN
      cases hadm : (limiterStep ⟨m, true, some ⟨m.toNat, k⟩⟩ (.call env req)).2 with
      | true =>
        obtain ⟨hk0, hst⟩ := h1 hadm
        rw [hst]
        refine ⟨⟨rfl, Or.inr ⟨rfl, k - 1, by omega, rfl⟩⟩, ?_⟩
        simp only [rateLimiterTransport.held, LimiterAction.isTick, if_true,
          Bool.false_eq_true, if_false]
        omega
      | false =>
        rw [h2 hadm]
        refine ⟨⟨rfl, Or.inr ⟨rfl, k, hk, rfl⟩⟩, ?_⟩
        simp [rateLimiterTransport.held]

/-- A limiter in service holds at most as many tokens as its rate. -/
theorem inService_held_le {N : Int} {r : rateLimiterTransport} (h : inService N r) :
    r.held ≤ N.toNat := by
  obtain ⟨-, ⟨-, ht⟩ | ⟨-, k, hk, ht⟩⟩ := h
  · simp [rateLimiterTransport.held, ht]
  · simp [rateLimiterTransport.held, ht, hk]

/-- No call is admitted in a window that lies before every step of the run. -/
theorem admittedIn_after (lo hi : Nat) : ∀ (run : List TimedAction)
    (r : rateLimiterTransport), (∀ e ∈ run, hi < e.time) → admittedIn lo hi r run = 0 := by
  intro run
  induction run with
  | nil => intro r _; rfl
  | cons e es ih =>
    intro r h
    have he : hi < e.time := h e (by simp)
    have hes := ih (limiterStep r e.action).1 (fun x hx => h x (by simp [hx]))
    simp only [admittedIn, hes, add_zero]
    rw [if_neg]
    omega

/-- In a run in the order of time whose steps all come after the start of the window, the
calls admitted in the window are at most the tokens held at first plus the ticks in the
window. -/
theorem admittedIn_le_held (N : Int) (hN : 0 < N) (lo hi : Nat) :
    ∀ (run : List TimedAction) (r : rateLimiterTransport), inService N r →
    ordered run → (∀ e ∈ run, lo < e.time) →
    admittedIn lo hi r run ≤ r.held + depositsIn lo hi run := by
  intro run
  induction run with
  | nil => intro r _ _ _; simp [admittedIn]
  | cons e es ih =>
    intro r hr hord hlo
    have hord1 : ordered es := (List.pairwise_cons.mp hord).2
    have hle : ∀ x ∈ es, e.time ≤ x.time := (List.pairwise_cons.mp hord).1
    have helo : lo < e.time := hlo e (by simp)
    obtain ⟨hr1, h2⟩ := limiterStep_inService N hN r e.action hr
    by_cases hhi : e.time ≤ hi
    · have h1 := ih (limiterStep r e.action).1 hr1 hord1 (fun x hx => hlo x (by simp [hx]))
      have hA : (if (limiterStep r e.action).2 = true ∧ lo < e.time ∧ e.time ≤ hi then 1
          else 0) = (if (limiterStep r e.action).2 = true then 1 else 0) := by
        simp [helo, hhi]
      have hD : (if e.action.isTick = true ∧ lo < e.time ∧ e.time ≤ hi then 1 else 0)
          = (if e.action.isTick = true then 1 else 0) := by
        simp [helo, hhi]
      simp only [admittedIn, depositsIn]
      rw [hA, hD]
      generalize (if (limiterStep r e.action).2 = true then 1 else 0) = A at h2 ⊢
      generalize (if e.action.isTick = true then 1 else 0) = D at h2 ⊢
      omega
    · have h0 := admittedIn_after lo hi es (limiterStep r e.action).1
        (fun x hx => by have := hle x hx; omega)
      simp only [admittedIn, h0, add_zero]
      rw [if_neg (by omega)]
      omega

/-- In a run in the order of time of a limiter in service, the calls admitted in a window
are at most the rate plus the ticks in the window. -/
theorem admittedIn_le_cap (N : Int) (hN : 0 < N) (lo hi : Nat) :
    ∀ (run : List TimedAction) (r : rateLimiterTransport), inService N r → ordered run →
    admittedIn lo hi r run ≤ N.toNat + depositsIn lo hi run := by
  intro run
  induction run with
  | nil => intro r _ _; simp [admittedIn]
  | cons e es ih =>
    intro r hr hord
    have hord1 : ordered es := (List.pairwise_cons.mp hord).2
    have hle : ∀ x ∈ es, e.time ≤ x.time := (List.pairwise_cons.mp hord).1
    by_cases helo : lo < e.time
    · have h1 := admittedIn_le_held N hN lo hi (e :: es) r hr hord (by
        intro x hx
        rcases List.mem_cons.mp hx with h | h
        · rw [h]; exact helo
        · have := hle x h; omega)
      have h2 := inService_held_le hr
      omega
    · obtain ⟨hr1, -⟩ := limiterStep_inService N hN r e.action hr
      have h3 := ih (limiterStep r e.action).1 hr1 hord1
      simp only [admittedIn, depositsIn]
      rw [if_neg (by omega), if_neg (by omega)]
      omega

/-- Ticks that all come after `t` are counted alike from `lo ≤ t` and from `t`. -/
theorem depositsIn_from (lo t hi : Nat) (hlt : lo ≤ t) : ∀ (run : List TimedAction),
    (∀ e ∈ run, e.action.isTick = true → t < e.time) →
    depositsIn lo hi run = depositsIn t hi run := by
  intro run
  induction run with
  | nil => intro _; rfl
  | cons e es ih =>
    intro h
    have h1 := ih (fun x hx => h x (by simp [hx]))
    simp only [depositsIn, h1]
    congr 1
    by_cases ht : e.action.isTick = true
    · have := h e (by simp) ht
      have h2 : lo < e.time := by omega
      simp [ht, this, h2]
    · simp [ht]

/-- The ticks in a window of a ticker of period `d` made at `o` are at most the multiples
of `d` after `o` in it. -/
theorem depositsIn_le (o d : Nat) (hd : 0 < d) (hi : Nat) : ∀ (run : List TimedAction)
    (lo : Nat), onSchedule o d run → depositsIn lo hi run ≤ (hi - o) / d - (lo - o) / d := by
  intro run
  induction run with
  | nil => intro lo _; simp [depositsIn]
  | cons e es ih =>
    intro lo hs
    have hs1 : onSchedule o d es :=
      ⟨(List.pairwise_cons.mp hs.1).2, fun x hx => hs.2 x (by simp [hx])⟩
    have hhead := (List.pairwise_cons.mp hs.1).1
    by_cases hc : e.action.isTick = true ∧ lo < e.time ∧ e.time ≤ hi
    · obtain ⟨ht, hlo, hhi⟩ := hc
      have hfrom := depositsIn_from lo e.time hi (le_of_lt hlo) es
        (fun x hx hxt => hhead x hx ht hxt)
      have h1 := ih e.time hs1
      obtain ⟨ho, q, hq⟩ := hs.2 e (by simp) ht
      have h2 : (lo - o) / d < (e.time - o) / d := by
        rw [hq, Nat.mul_div_cancel_left q hd]
        exact (Nat.div_lt_iff_lt_mul hd).mpr (by rw [Nat.mul_comm]; omega)
      have h3 : (e.time - o) / d ≤ (hi - o) / d :=
        Nat.div_le_div_right (Nat.sub_le_sub_right hhi o)
      simp only [depositsIn]
      rw [if_pos ⟨ht, hlo, hhi⟩, hfrom]
      omega
    · have h1 := ih lo hs1
      simp only [depositsIn]
      rw [if_neg hc]
      omega

/-- A window of length `len` holds at most `len / d + 1` multiples of `d` counted from
`o`, and at most `len / d` when `d` divides `len`. -/
theorem multiples_in_window (o d t len : Nat) (hd : 0 < d) :
    (t + len - o) / d - (t - o) / d ≤ len / d + 1 ∧
    (d ∣ len → (t + len - o) / d - (t - o) / d ≤ len / d) := by
  by_cases hot : o ≤ t
  · have he : t + len - o = (t - o) + len := by omega
    rw [he]
    constructor
    · rw [Nat.add_div hd]
      generalize len / d = q
      generalize (t - o) / d = p
      split <;> omega
    · intro h
      rw [Nat.add_div_of_dvd_left h, Nat.add_sub_cancel_left]
  · have he : t - o = 0 := by omega
    have h1 : (t + len - o) / d ≤ len / d := Nat.div_le_div_right (by omega)
    rw [he, Nat.zero_div, Nat.sub_zero]
    exact ⟨Nat.le_succ_of_le h1, fun _ => h1⟩

/-- The limiter stays in service along a run. -/
theorem limiterRun_inService (N : Int) (hN : 0 < N) : ∀ (acts : List LimiterAction)
    (r : rateLimiterTransport), inService N r → inService N (limiterRun r acts) := by
  intro acts
  induction acts with
  | nil => intro r h; exact h
  | cons a as ih =>
    intro r h
    exact ih _ (limiterStep_inService N hN r a h).1

/-- The period of the ticker, as a natural number, is the quotient of `10^9` by the rate. -/
theorem interval_toNat (N : Int) (hN : 0 < N) :
    (Second / N).toNat = 1000000000 / N.toNat := by
  have hs : Second = ((1000000000 : Nat) : Int) := by decide
  obtain ⟨n, rfl⟩ := Int.eq_ofNat_of_zero_le (le_of_lt hN)
  have h : Second / (n : Int) = ((1000000000 / n : Nat) : Int) := by
    rw [hs]
    norm_cast
  rw [h, Int.toNat_ofNat, Int.toNat_ofNat]

/-- Once `r.once` has fired it stays so along a run. -/
theorem limiterRun_once_kept : ∀ (acts : List LimiterAction) (r : rateLimiterTransport),
    r.once = true → (limiterRun r acts).once = false → False := by
  intro acts
  induction acts with
  | nil =>
    intro r h hf
    rw [limiterRun, h] at hf
    cases hf
  | cons a as ih =>
    intro r h hf
    refine ih (limiterStep r a).1 ?_ hf
    cases a with
    | tick => exact h
    | call env req =>
      simp only [limiterStep, rateLimiterTransport.RoundTrip, h, if_true,
        rateLimiterTransport.throttle]
      split
      · split <;> first | exact h | rfl | (split <;> first | exact h | rfl)
      · exact h

/-! ## Release of response bodies -/

/-- Calls of the body provider do not change which body is open. -/
theorem released_skip (o : Option Response) (ys : List Event) : ∀ (xs : List Event),
    (∀ x ∈ xs, ∃ a r, x = Event.getBody a r) → released o (xs ++ ys) = released o ys := by
  intro xs
  induction xs with
  | nil => intro _; rfl
  | cons x xs ih =>
    intro h
    obtain ⟨a, r, hx⟩ := h x (by simp)
    rw [hx]
    simp only [List.cons_append, released]
    exact ih (fun y hy => h y (by simp [hy]))

/-- The fresh-body block only calls the body provider. -/
theorem freshBody_events (getBody : Option (Nat → Except GoError (Option ReadCloser)))
    (attempt : Nat) (body : Option ReadCloser) :
    ∀ x ∈ (freshBody getBody attempt body).events, ∃ a r, x = Event.getBody a r := by
  unfold freshBody
  split
  · cases getBody with
    | none => simp [Fresh.events]
    | some f =>
      simp only
      cases f attempt <;> simp [Fresh.events]
  · simp [Fresh.events]

/-- The scan of a trace made of two parts. -/
theorem released_append : ∀ (xs ys : List Event) (o : Option Response),
    released o (xs ++ ys) = (released o xs).bind (fun o1 => released o1 ys) := by
  intro xs
  induction xs with
  | nil => intro ys o; rfl
  | cons x xs ih =>
    intro ys o
    cases x with
    | getBody a r => simp only [List.cons_append, released]; exact ih ys o
    | dispatch a b resp err =>
      simp only [List.cons_append, released]
      split
      · exact ih ys resp
      · rfl
    | close r =>
      simp only [List.cons_append, released]
      split
      · exact ih ys none
      · rfl
    | sleep d c =>
      simp only [List.cons_append, released]
      split
      · exact ih ys none
      · rfl

/-- A dispatch followed by the closing of the response body leaves no body open. -/
theorem released_dispatch_close (a : Nat) (b : Option ReadCloser) (resp : Option Response)
    (err : Option GoError) :
    released none ([Event.dispatch a b resp err] ++ closeBody resp) = some none := by
  cases resp <;> simp [released, closeBody]

/-- When a body is only ever present together with a provider, a round of the loop that
returns leaves open exactly the body of the response it returns, and a round that goes on
leaves no body open; in both the discipline of `released` is kept. -/
theorem iteration_released (t : retryTransport) (env : Env)
    {getBody : Option (Nat → Except GoError (Option ReadCloser))} (attempt : Nat)
    {body : Option ReadCloser} (backoff : Duration)
    (h : body ≠ none → getBody.isSome = true) :
    (∀ r evs, iteration t env getBody attempt body backoff = .done r evs →
      ∃ resp err, r = .ret resp err ∧ released none evs = some resp) ∧
    (∀ body1 backoff1 evs, iteration t env getBody attempt body backoff =
      .next body1 backoff1 evs → released none evs = some none) := by
  have hev := freshBody_events getBody attempt body
  unfold iteration
  rcases freshBody_cases attempt h with ⟨body1, evs1, hf, -⟩ | ⟨e, evs1, hf⟩
  · rw [hf] at hev ⊢
    simp only [Fresh.events] at hev
    simp only
    constructor
    · intro r evs hit
      split at hit
      · split at hit
        · simp only [Step.done.injEq] at hit
          refine ⟨_, _, hit.1.symm, ?_⟩
          rw [← hit.2, List.append_assoc, released_skip _ _ _ hev, released_dispatch_close]
        · simp only [Step.done.injEq] at hit
          refine ⟨_, _, hit.1.symm, ?_⟩
          rw [← hit.2, released_skip _ _ _ hev]
          simp [released]
      · split at hit <;> cases hit
    · intro b1 k1 evs hit
      split at hit
      · split at hit <;> cases hit
      · split at hit
        · simp only [Step.next.injEq] at hit
          rw [← hit.2.2, List.append_assoc, List.append_assoc, released_skip _ _ _ hev,
            ← List.append_assoc, released_append, released_dispatch_close]
          simp [released]
        · simp only [Step.next.injEq] at hit
          rw [← hit.2.2, List.append_assoc, List.append_assoc, released_skip _ _ _ hev,
            ← List.append_assoc, released_append, released_dispatch_close]
          simp [released]
  · rw [hf] at hev ⊢
    simp only [Fresh.events] at hev
    simp only
    constructor
    · intro r evs hit
      simp only [Step.done.injEq] at hit
      refine ⟨_, _, hit.1.symm, ?_⟩
      rw [← hit.2]
      have := released_skip none [] evs1 hev
      rw [List.append_nil] at this
      rw [this]
      rfl
    · intro b1 k1 evs hit
      cases hit

/-- Whatever the collaborators answer, the loop entered with no body open and with a body
that is only present together with a provider returns a pair and leaves open exactly the
body of the response it returns, keeping the discipline of `released`. -/
theorem loop_released (t : retryTransport) (env : Env)
    (getBody : Option (Nat → Except GoError (Option ReadCloser))) :
    ∀ (n attempt : Nat) (body : Option ReadCloser) (backoff : Duration),
      (t.maxRetries - attempt).toNat = n → (body ≠ none → getBody.isSome = true) →
      ∃ resp err, (loop t env getBody attempt body backoff).1 = .ret resp err ∧
        released none (loop t env getBody attempt body backoff).2 = some resp := by
  intro n
  induction n with
  | zero =>
    intro attempt body backoff hn hb
    obtain ⟨h1, -⟩ := iteration_released t env (attempt + 1) backoff hb
    cases hit : iteration t env getBody (attempt + 1) body backoff with
    | done r evs =>
      rw [loop_done hit]
      exact h1 r evs hit
    | next b1 k1 evs =>
      have := iteration_next_le hit
      push_cast at this
      omega
  | succ n ih =>
    intro attempt body backoff hn hb
    obtain ⟨h1, h2⟩ := iteration_released t env (attempt + 1) backoff hb
    obtain ⟨-, h3⟩ := iteration_no_panic t env (attempt + 1) backoff hb
    cases hit : iteration t env getBody (attempt + 1) body backoff with
    | done r evs =>
      rw [loop_done hit]
      exact h1 r evs hit
    | next b1 k1 evs =>
      rw [loop_next hit]
      obtain ⟨resp, err, h4, h5⟩ :=
        ih (attempt + 1) b1 k1 (by push_cast; omega) (h3 b1 k1 evs hit)
      refine ⟨resp, err, h4, ?_⟩
      simp only
      rw [released_append, h2 b1 k1 evs hit]
      exact h5

/-! ## C1: the retryability policy -/

/-- C1: `shouldRetry` is true exactly when the error is non-nil, or there is no response,
or the response status is 429, or the status lies in 500..599; in particular a response
with a nil error and status 200, 301, 404, 499 or 600 is not retried. -/
theorem shouldRetry_iff :
    (∀ (resp : Option Response) (err : Option GoError),
      shouldRetry resp err = true ↔
        (err ≠ none ∨ resp = none ∨
          ∃ r, resp = some r ∧ (r.StatusCode = 429 ∨ (500 ≤ r.StatusCode ∧ r.StatusCode ≤ 599)))) ∧
    (∀ (h : String) (b : ReadCloser),
      shouldRetry (some ⟨200, h, b⟩) none = false ∧ shouldRetry (some ⟨301, h, b⟩) none = false ∧
      shouldRetry (some ⟨404, h, b⟩) none = false ∧ shouldRetry (some ⟨499, h, b⟩) none = false ∧
      shouldRetry (some ⟨600, h, b⟩) none = false) := by
  refine ⟨?_, ?_⟩
  · intro resp err
    cases err with
    | some e => simp [shouldRetry]
    | none =>
      cases resp with
      | none => simp [shouldRetry]
      | some r =>
        by_cases h1 : r.StatusCode = 429
        · simp [shouldRetry, h1]
        · by_cases h2 : 500 ≤ r.StatusCode ∧ r.StatusCode ≤ 599
          · simp [shouldRetry, h1, h2]
          · have h3 : ¬ (r.StatusCode ≥ 500 ∧ r.StatusCode ≤ 599) := h2
            simp [shouldRetry, h1, h2, h3]
  · intro h b
    simp [shouldRetry]

/-! ## C2: retries exhausted -/

/-- C2: with `maxRetries = m ≥ 0` and a request whose body is absent or re-acquirable with
re-acquisition always succeeding, if every dispatch yields a retryable outcome then
`RoundTrip` dispatches exactly `m + 1` times and returns `(nil, errMaxRetries)`. -/
theorem RoundTrip_retries_exhausted (t : retryTransport) (env : Env) (req : Request)
    (hm : 0 ≤ t.maxRetries)
    (hbody : req.Body ≠ none → ∃ f, req.GetBody = some f ∧ ∀ n, ∃ b, f n = .ok b)
    (hretry : ∀ n, shouldRetry (env.next n).1 (env.next n).2 = true) :
    (t.RoundTrip env req).1 = .ret none (some .errMaxRetries) ∧
    (dispatches (t.RoundTrip env req).2 : Int) = t.maxRetries + 1 := by
  have hgate : ¬ (req.Body ≠ none ∧ req.GetBody.isNone = true) := by
    rintro ⟨hb, hg⟩
    obtain ⟨f, hf, -⟩ := hbody hb
    simp [hf] at hg
  have hk : ((0 : Nat) : Int) + (t.maxRetries.toNat : Nat) = t.maxRetries := by
    rw [Int.toNat_of_nonneg hm]; simp
  obtain ⟨h1, h2, -⟩ :=
    loop_exhausted hretry t.maxRetries.toNat 0 req.Body t.initialBackoff hk hbody
  unfold retryTransport.RoundTrip
  rw [if_neg hgate]
  refine ⟨h1, ?_⟩
  rw [h2]
  push_cast
  rw [Int.toNat_of_nonneg hm]

/-- C2 witness: `maxRetries = 3` and a server that always answers 503 give exactly 4
dispatches and then `errMaxRetries`. -/
theorem RoundTrip_retries_exhausted_witness :
    ((⟨3, 200 * Millisecond, 2 * Second⟩ : retryTransport).RoundTrip
        ⟨fun _ => (some ⟨503, "", 0⟩, none), fun _ => false⟩ ⟨none, none⟩).1
      = .ret none (some .errMaxRetries) ∧
    (dispatches ((⟨3, 200 * Millisecond, 2 * Second⟩ : retryTransport).RoundTrip
        ⟨fun _ => (some ⟨503, "", 0⟩, none), fun _ => false⟩ ⟨none, none⟩).2 : Int) = 3 + 1 :=
  RoundTrip_retries_exhausted ⟨3, 200 * Millisecond, 2 * Second⟩
    ⟨fun _ => (some ⟨503, "", 0⟩, none), fun _ => false⟩ ⟨none, none⟩ (by decide)
    (fun h => absurd rfl h) (fun _ => rfl)

/-! ## C3: the replayability gate -/

/-- C3: a request that has a body but no `GetBody` provider is dispatched exactly once,
with no pause and no close, and `RoundTrip` returns exactly the pair the underlying chain
returned, whatever that pair is. -/
theorem RoundTrip_single_use_body (t : retryTransport) (env : Env) (req : Request)
    (hb : req.Body ≠ none) (hg : req.GetBody.isNone = true) :
    (t.RoundTrip env req).1 = .ret (env.next 1).1 (env.next 1).2 ∧
    (t.RoundTrip env req).2 = [Event.dispatch 1 req.Body (env.next 1).1 (env.next 1).2] ∧
    dispatches (t.RoundTrip env req).2 = 1 ∧
    waits (t.RoundTrip env req).2 = [] := by
  unfold retryTransport.RoundTrip
  rw [if_pos ⟨hb, hg⟩]
  exact ⟨rfl, rfl, rfl, rfl⟩

/-- C3 witness: a single-use body and a chain that answers 503 (retryable): one dispatch,
the 503 response is returned. -/
theorem RoundTrip_single_use_body_witness :
    ((⟨3, 200 * Millisecond, 2 * Second⟩ : retryTransport).RoundTrip
        ⟨fun _ => (some ⟨503, "", 0⟩, none), fun _ => false⟩ ⟨some 1, none⟩).1
      = .ret (some ⟨503, "", 0⟩) none ∧
    ((⟨3, 200 * Millisecond, 2 * Second⟩ : retryTransport).RoundTrip
        ⟨fun _ => (some ⟨503, "", 0⟩, none), fun _ => false⟩ ⟨some 1, none⟩).2
      = [Event.dispatch 1 (some 1) (some ⟨503, "", 0⟩) none] ∧
    dispatches ((⟨3, 200 * Millisecond, 2 * Second⟩ : retryTransport).RoundTrip
        ⟨fun _ => (some ⟨503, "", 0⟩, none), fun _ => false⟩ ⟨some 1, none⟩).2 = 1 ∧
    waits ((⟨3, 200 * Millisecond, 2 * Second⟩ : retryTransport).RoundTrip
        ⟨fun _ => (some ⟨503, "", 0⟩, none), fun _ => false⟩ ⟨some 1, none⟩).2 = [] :=
  RoundTrip_single_use_body ⟨3, 200 * Millisecond, 2 * Second⟩
    ⟨fun _ => (some ⟨503, "", 0⟩, none), fun _ => false⟩ ⟨some 1, none⟩ (by decide) rfl

/-! ## C4: return at the first terminal outcome -/

/-- C4: for a request whose body is absent or re-acquirable and `1 ≤ k ≤ maxRetries + 1`,
if attempts `1..k-1` yield retryable outcomes and attempt `k` yields a response with a nil
error whose status is neither 429 nor in 500..599 (the attempts being dispatched, so the
body re-acquisitions of attempts `2..k` succeed), then `RoundTrip` dispatches exactly `k`
times, pauses `k - 1` times and returns that response with a nil error. -/
theorem RoundTrip_first_terminal (t : retryTransport) (env : Env) (req : Request) (k : Nat)
    (r : Response) (hk1 : 1 ≤ k) (hk : (k : Int) ≤ t.maxRetries + 1)
    (hbody : req.Body ≠ none →
      ∃ f, req.GetBody = some f ∧ ∀ n, 2 ≤ n → n ≤ k → ∃ b, f n = .ok b)
    (hretry : ∀ n, 1 ≤ n → n < k → shouldRetry (env.next n).1 (env.next n).2 = true)
    (hresp : env.next k = (some r, none))
    (h429 : r.StatusCode ≠ 429) (h5xx : ¬ (500 ≤ r.StatusCode ∧ r.StatusCode ≤ 599)) :
    (t.RoundTrip env req).1 = .ret (some r) none ∧
    dispatches (t.RoundTrip env req).2 = k ∧
    (waits (t.RoundTrip env req).2).length = k - 1 := by
  have hgate : ¬ (req.Body ≠ none ∧ req.GetBody.isNone = true) := by
    rintro ⟨hb, hg⟩
    obtain ⟨f, hf, -⟩ := hbody hb
    simp [hf] at hg
  have hterm : shouldRetry (env.next k).1 (env.next k).2 = false := by
    have h5 : ¬ (r.StatusCode ≥ 500 ∧ r.StatusCode ≤ 599) := h5xx
    simp [hresp, shouldRetry, h429, h5]
  obtain ⟨h1, h2, h3⟩ :=
    loop_first_terminal k hk hretry hterm (k - 1) 0 req.Body t.initialBackoff (by omega) hbody
  unfold retryTransport.RoundTrip
  rw [if_neg hgate, h1, h2, h3, hresp]
  exact ⟨rfl, by omega, rfl⟩

/-- C4 witness (`k = 2`, re-acquirable body): a 503 followed by a 404 gives two
dispatches, one pause, and the 404 response is returned. -/
theorem RoundTrip_first_terminal_witness :
    ((⟨3, 200 * Millisecond, 2 * Second⟩ : retryTransport).RoundTrip
        ⟨fun n => if n = 1 then (some ⟨503, "", 0⟩, none) else (some ⟨404, "", 1⟩, none),
          fun _ => false⟩ ⟨some 7, some (fun n => .ok (some n))⟩).1
      = .ret (some ⟨404, "", 1⟩) none ∧
    dispatches ((⟨3, 200 * Millisecond, 2 * Second⟩ : retryTransport).RoundTrip
        ⟨fun n => if n = 1 then (some ⟨503, "", 0⟩, none) else (some ⟨404, "", 1⟩, none),
          fun _ => false⟩ ⟨some 7, some (fun n => .ok (some n))⟩).2 = 2 ∧
    (waits ((⟨3, 200 * Millisecond, 2 * Second⟩ : retryTransport).RoundTrip
        ⟨fun n => if n = 1 then (some ⟨503, "", 0⟩, none) else (some ⟨404, "", 1⟩, none),
          fun _ => false⟩ ⟨some 7, some (fun n => .ok (some n))⟩).2).length = 2 - 1 :=
  RoundTrip_first_terminal ⟨3, 200 * Millisecond, 2 * Second⟩
    ⟨fun n => if n = 1 then (some ⟨503, "", 0⟩, none) else (some ⟨404, "", 1⟩, none),
      fun _ => false⟩ ⟨some 7, some (fun n => .ok (some n))⟩ 2 ⟨404, "", 1⟩
    (by decide) (by decide) (fun _ => ⟨_, rfl, fun n _ _ => ⟨_, rfl⟩⟩)
    (fun n h1 h2 => by
      have hn : n = 1 := by omega
      subst hn
      rfl)
    rfl (by decide) (by decide)

/-! ## C5: cancellation while pausing -/

/-- C5: evaluation of `RoundTrip` with `maxRetries = 3` when the context is cancelled during
the pause between attempts 2 and 3: the pause ends, attempts 3 and 4 are still dispatched,
and the call returns `errMaxRetries`, not the error of the context. -/
theorem RoundTrip_cancelled_pause_goes_on :
    (⟨3, 200 * Millisecond, 2 * Second⟩ : retryTransport).RoundTrip cancelledAfterSecond
        ⟨none, none⟩ =
      (.ret none (some .errMaxRetries),
        [.dispatch 1 none (some ⟨503, "", 0⟩) none, .close ⟨503, "", 0⟩,
          .sleep (200 * Millisecond) false,
          .dispatch 2 none (some ⟨503, "", 0⟩) none, .close ⟨503, "", 0⟩,
          .sleep (400 * Millisecond) true,
          .dispatch 3 none none (some .canceled), .sleep (800 * Millisecond) true,
          .dispatch 4 none none (some .canceled)]) := by
  have h1 : iteration ⟨3, 200 * Millisecond, 2 * Second⟩ cancelledAfterSecond none (0 + 1) none
      (200 * Millisecond) = .next none (400 * Millisecond)
        [.dispatch 1 none (some ⟨503, "", 0⟩) none, .close ⟨503, "", 0⟩,
          .sleep (200 * Millisecond) false] := by rfl
  have h2 : iteration ⟨3, 200 * Millisecond, 2 * Second⟩ cancelledAfterSecond none (1 + 1) none
      (400 * Millisecond) = .next none (800 * Millisecond)
        [.dispatch 2 none (some ⟨503, "", 0⟩) none, .close ⟨503, "", 0⟩,
          .sleep (400 * Millisecond) true] := by rfl
  have h3 : iteration ⟨3, 200 * Millisecond, 2 * Second⟩ cancelledAfterSecond none (2 + 1) none
      (800 * Millisecond) = .next none (1600 * Millisecond)
        [.dispatch 3 none none (some .canceled), .sleep (800 * Millisecond) true] := by rfl
  have h4 : iteration ⟨3, 200 * Millisecond, 2 * Second⟩ cancelledAfterSecond none (3 + 1) none
      (1600 * Millisecond) = .done (.ret none (some .errMaxRetries))
        [.dispatch 4 none none (some .canceled)] := by rfl
  unfold retryTransport.RoundTrip
  rw [if_neg (by simp)]
  show loop _ _ none 0 none (200 * Millisecond) = _
  rw [loop_next h1, loop_next h2, loop_next h3, loop_done h4]
  rfl

/-! ## C6: the backoff sequence -/

/-- C6: with `0 < initialBackoff ≤ maxBackoff`, no doubling of a pause leaving the 64-bit
range, every outcome retryable and no response carrying a Retry-After header (the body
absent or re-acquired with success), the pause before retry number `j + 1` is
`min (initialBackoff * 2^j) maxBackoff`, for each of the `maxRetries` retries. -/
theorem RoundTrip_backoff_sequence (t : retryTransport) (env : Env) (req : Request)
    (hm : 0 ≤ t.maxRetries) (hpos : 0 < t.initialBackoff)
    (hle : t.initialBackoff ≤ t.maxBackoff)
    (hov : ∀ j, j < t.maxRetries.toNat →
      2 * min (t.initialBackoff * 2 ^ j) t.maxBackoff < 2 ^ 63)
    (hbody : req.Body ≠ none → ∃ f, req.GetBody = some f ∧ ∀ n, ∃ b, f n = .ok b)
    (hretry : ∀ n, shouldRetry (env.next n).1 (env.next n).2 = true)
    (hnohdr : ∀ n r, (env.next n).1 = some r → r.RetryAfter = "") :
    waits (t.RoundTrip env req).2 =
      (List.range t.maxRetries.toNat).map
        (fun j => min (t.initialBackoff * 2 ^ j) t.maxBackoff) := by
  have hgate : ¬ (req.Body ≠ none ∧ req.GetBody.isNone = true) := by
    rintro ⟨hb, hg⟩
    obtain ⟨f, hf, -⟩ := hbody hb
    simp [hf] at hg
  have hra : ∀ n, getRetryAfter (env.next n).1 ≤ 0 := by
    intro n
    cases hr : (env.next n).1 with
    | none => simp [getRetryAfter]
    | some r => simp [getRetryAfter, hnohdr n r hr]
  have hk : ((0 : Nat) : Int) + (t.maxRetries.toNat : Nat) = t.maxRetries := by
    rw [Int.toNat_of_nonneg hm]; simp
  unfold retryTransport.RoundTrip
  rw [if_neg hgate]
  exact loop_waits_backoff hretry hra t.maxRetries.toNat 0 req.Body t.initialBackoff hk
    hbody hpos hle hov

/-- C6 witness: `initialBackoff = 200ms`, `maxBackoff = 2s` and six retries of a server
that always answers 503 give the pauses 200ms, 400ms, 800ms, 1600ms, 2000ms, 2000ms. -/
theorem RoundTrip_backoff_sequence_witness :
    waits ((⟨6, 200 * Millisecond, 2 * Second⟩ : retryTransport).RoundTrip
        ⟨fun _ => (some ⟨503, "", 0⟩, none), fun _ => false⟩ ⟨none, none⟩).2 =
      [200 * Millisecond, 400 * Millisecond, 800 * Millisecond, 1600 * Millisecond,
        2000 * Millisecond, 2000 * Millisecond] :=
  (RoundTrip_backoff_sequence ⟨6, 200 * Millisecond, 2 * Second⟩
    ⟨fun _ => (some ⟨503, "", 0⟩, none), fun _ => false⟩ ⟨none, none⟩ (by decide) (by decide)
    (by decide)
    (fun j _ => lt_of_le_of_lt
      (Int.mul_le_mul_of_nonneg_left (min_le_right _ _) (by decide)) (by decide))
    (fun h => absurd rfl h) (fun _ => rfl)
    (fun _ r h => by cases h; rfl)).trans (by decide)

/-! ## C7: Retry-After is honoured verbatim -/

/-- C7: in a round within the budget whose attempt is dispatched and yields a retryable
outcome with a response whose Retry-After header is a positive whole number `n` of seconds
(within the range of a duration), whatever the backoff `b` and `maxBackoff` are, the body
is closed, the pause is exactly `n` seconds, and the loop goes on with the backoff `b`
unchanged: a next round that is retried without a positive Retry-After pauses for `b`. -/
theorem RoundTrip_retryAfter_verbatim (t : retryTransport) (env : Env)
    (getBody : Option (Nat → Except GoError (Option ReadCloser))) (attempt : Nat)
    (body body1 : Option ReadCloser) (backoff : Duration) (evs : List Event) (r : Response)
    (err : Option GoError) (n : Nat)
    (hf : freshBody getBody attempt body = .use body1 evs)
    (hout : env.next attempt = (some r, err))
    (hretry : shouldRetry (some r) err = true)
    (hbudget : (attempt : Int) ≤ t.maxRetries)
    (hn : 0 < n) (hrep : n * 10 ^ 9 < 2 ^ 63)
    (hhdr : r.RetryAfter = toString n) :
    iteration t env getBody attempt body backoff =
      .next body1 backoff
        (evs ++ [Event.dispatch attempt body1 (some r) err] ++ [Event.close r]
          ++ [Event.sleep ((n : Int) * Second) (env.ctxDone attempt)]) ∧
    (∀ body2 evs2, freshBody getBody (attempt + 1) body1 = .use body2 evs2 →
      shouldRetry (env.next (attempt + 1)).1 (env.next (attempt + 1)).2 = true →
      ((attempt + 1 : Nat) : Int) ≤ t.maxRetries →
      getRetryAfter (env.next (attempt + 1)).1 ≤ 0 →
      waits (iteration t env getBody (attempt + 1) body1 backoff).events = [backoff]) := by
  have hra : getRetryAfter (some r) = (n : Int) * Second := getRetryAfter_seconds r n hrep hhdr
  have hpos : 0 < getRetryAfter (env.next attempt).1 := by
    rw [hout, hra]
    have h1 : (0 : Int) < (n : Int) := by exact_mod_cast hn
    have h2 : (0 : Int) < Second := by decide
    exact Int.mul_pos h1 h2
  have hr1 : shouldRetry (env.next attempt).1 (env.next attempt).2 = true := by
    rw [hout]; exact hretry
  constructor
  · have h := iteration_retryAfter t backoff hf hr1 hbudget hpos
    rw [hout] at h
    rw [h]
    simp only [hra, closeBody]
  · intro body2 evs2 hf2 hr2 hb2 hra2
    rw [iteration_backoff t backoff hf2 hr2 hb2 hra2]
    simp [Step.events, waits_append, waits, waits_closeBody, freshBody_waits hf2]

/-- C7 witness: a 429 response with `Retry-After: 5` on the first attempt, with a backoff
of 200ms and `maxBackoff` of 2s, gives a pause of 5 seconds and leaves the backoff at
200ms. -/
theorem RoundTrip_retryAfter_verbatim_witness :
    iteration ⟨3, 200 * Millisecond, 2 * Second⟩
        ⟨fun n => if n = 1 then (some ⟨429, "5", 0⟩, none) else (some ⟨503, "", 0⟩, none),
          fun _ => false⟩ none 1 none (200 * Millisecond) =
      .next none (200 * Millisecond)
        ([] ++ [Event.dispatch 1 none (some ⟨429, "5", 0⟩) none] ++ [Event.close ⟨429, "5", 0⟩]
          ++ [Event.sleep (((5 : Nat) : Int) * Second) false]) ∧
    (∀ body2 evs2, freshBody none (1 + 1) none = .use body2 evs2 →
      shouldRetry
        ((⟨fun n => if n = 1 then (some ⟨429, "5", 0⟩, none) else (some ⟨503, "", 0⟩, none),
          fun _ => false⟩ : Env).next (1 + 1)).1
        ((⟨fun n => if n = 1 then (some ⟨429, "5", 0⟩, none) else (some ⟨503, "", 0⟩, none),
          fun _ => false⟩ : Env).next (1 + 1)).2 = true →
      ((1 + 1 : Nat) : Int) ≤ (⟨3, 200 * Millisecond, 2 * Second⟩ : retryTransport).maxRetries →
      getRetryAfter
        ((⟨fun n => if n = 1 then (some ⟨429, "5", 0⟩, none) else (some ⟨503, "", 0⟩, none),
          fun _ => false⟩ : Env).next (1 + 1)).1 ≤ 0 →
      waits (iteration ⟨3, 200 * Millisecond, 2 * Second⟩
        ⟨fun n => if n = 1 then (some ⟨429, "5", 0⟩, none) else (some ⟨503, "", 0⟩, none),
          fun _ => false⟩ none (1 + 1) none (200 * Millisecond)).events
        = [200 * Millisecond]) :=
  RoundTrip_retryAfter_verbatim ⟨3, 200 * Millisecond, 2 * Second⟩
    ⟨fun n => if n = 1 then (some ⟨429, "5", 0⟩, none) else (some ⟨503, "", 0⟩, none),
      fun _ => false⟩ none 1 none none (200 * Millisecond) [] ⟨429, "5", 0⟩ none 5
    rfl rfl rfl (by decide) (by decide) (by decide) rfl

/-! ## C8: which Retry-After values are recognised -/

/-- The comment of `getRetryAfter` says "seconds only", but a value that carries a unit of
its own is read in that unit once `s` is appended: `5m` as 5 milliseconds and `1h30` as
one hour and 30 seconds. -/
theorem getRetryAfter_own_unit :
    getRetryAfter (some ⟨429, "5m", 0⟩) = 5 * Millisecond ∧
    getRetryAfter (some ⟨429, "1h30", 0⟩) = Hour + 30 * Second := by
  refine ⟨by rfl, by rfl⟩

/-- C8, as stated, fails: a fractional count of seconds is recognised. The header value
`1.5` is read as 1.5 seconds, not as 0. -/
theorem getRetryAfter_non_integer_recognised :
    getRetryAfter (some ⟨429, "1.5", 0⟩) = 1500 * Millisecond ∧
    getRetryAfter (some ⟨429, "1.5", 0⟩) ≠ 0 := by
  refine ⟨by rfl, by decide⟩

/-- C8, amended: a Retry-After value that, after an optional leading sign, contains a
character other than a decimal digit, a period or one of the seven letters `n`, `u`,
`µ` (U+00B5), `μ` (U+03BC), `m`, `s`, `h`, or that does not begin with a digit or a
period, gives 0: the header is treated as absent. Every HTTP-date is such a value.
Nothing is said here of a value made of digits, periods and those letters only. -/
theorem getRetryAfter_unrecognised (r : Response)
    (h : (∃ c ∈ stripSign r.RetryAfter.data, durationChar c = false) ∨
      ∀ c, (stripSign r.RetryAfter.data).head? = some c → ¬ (c = '.' ∨ isDigit c = true)) :
    getRetryAfter (some r) = 0 := by
  unfold getRetryAfter
  simp only
  split
  · rename_i hne
    have hv : r.RetryAfter.data ≠ [] := by
      intro h0
      apply hne
      exact String.ext h0
    have hdata : (r.RetryAfter ++ "s").data = r.RetryAfter.data ++ ['s'] := by
      simp [String.data_append]
    have hstrip := stripSign_append r.RetryAfter.data hv 's'
    have h0 : stripSign (r.RetryAfter.data ++ ['s']) ≠ ['0'] := by
      rw [hstrip]
      intro h1
      have h2 := congrArg List.getLast? h1
      simp at h2
    have herr : ∃ e, parseDurationChars (r.RetryAfter.data ++ ['s']) = .error e := by
      apply parseDurationChars_error _ h0
      rw [hstrip]
      rcases h with ⟨c, hc, hbad⟩ | h
      · exact Or.inl ⟨c, List.mem_append_left _ hc, hbad⟩
      · right
        intro c hc
        cases hs : stripSign r.RetryAfter.data with
        | nil =>
          rw [hs] at hc
          simp only [List.nil_append, List.head?_cons, Option.some.injEq] at hc
          rw [← hc]
          decide
        | cons a as =>
          rw [hs] at hc h
          simp only [List.cons_append, List.head?_cons, Option.some.injEq] at hc
          exact h c (by simp [hc])
    obtain ⟨e, he⟩ := herr
    unfold ParseDuration
    rw [hdata, he]
  · rfl

/-- C8 witness: an HTTP-date is treated as absent. -/
theorem getRetryAfter_unrecognised_witness :
    getRetryAfter (some ⟨503, "Wed, 21 Oct 2015 07:28:00 GMT", 0⟩) = 0 :=
  getRetryAfter_unrecognised ⟨503, "Wed, 21 Oct 2015 07:28:00 GMT", 0⟩
    (Or.inl ⟨' ', by decide, by decide⟩)

/-! ## C9: the attempt budget -/

/-- C9: with `maxRetries = m ≥ 0`, for every request and every behaviour of the underlying
chain, of the body provider and of the context, `RoundTrip` returns a `(response, error)`
pair, after at most `m + 1` dispatches. -/
theorem RoundTrip_attempt_budget (t : retryTransport) (env : Env) (req : Request)
    (hm : 0 ≤ t.maxRetries) :
    ∃ resp err tr, t.RoundTrip env req = (.ret resp err, tr) ∧
      (dispatches tr : Int) ≤ t.maxRetries + 1 := by
  unfold retryTransport.RoundTrip
  split
  · refine ⟨_, _, _, rfl, ?_⟩
    simp only [dispatches]
    push_cast
    omega
  · rename_i hgate
    have hb : req.Body ≠ none → req.GetBody.isSome = true := by
      intro hne
      by_contra hg
      apply hgate
      refine ⟨hne, ?_⟩
      cases hG : req.GetBody with
      | none => rfl
      | some f => rw [hG] at hg; simp at hg
    obtain ⟨resp, err, hret⟩ := loop_returns t env req.GetBody (t.maxRetries - (0 : Nat)).toNat 0
      req.Body t.initialBackoff rfl hb
    have h := loop_dispatches_le t env req.GetBody (t.maxRetries - (0 : Nat)).toNat 0 req.Body
      t.initialBackoff rfl
    have h2 : ((t.maxRetries - (0 : Nat)).toNat : Int) = t.maxRetries := by
      rw [Int.toNat_of_nonneg (by push_cast; omega)]
      push_cast
      omega
    refine ⟨resp, err, (loop t env req.GetBody 0 req.Body t.initialBackoff).2, ?_, by omega⟩
    rw [← hret]

/-- C9 witness: `maxRetries = 2` and a chain that fails with a transport error on every
attempt. -/
theorem RoundTrip_attempt_budget_witness :
    ∃ resp err tr, (⟨2, 200 * Millisecond, 2 * Second⟩ : retryTransport).RoundTrip
        ⟨fun _ => (none, some (.other "connection refused")), fun _ => false⟩
        ⟨some 1, some (fun n => .ok (some n))⟩ = (.ret resp err, tr) ∧
      (dispatches tr : Int) ≤ 2 + 1 :=
  RoundTrip_attempt_budget ⟨2, 200 * Millisecond, 2 * Second⟩
    ⟨fun _ => (none, some (.other "connection refused")), fun _ => false⟩
    ⟨some 1, some (fun n => .ok (some n))⟩ (by decide)

/-! ## C10: failure of the body provider -/

/-- C10: for a request with a re-acquirable body whose provider is called on attempt
`n > 1` (the earlier attempts had retryable outcomes within the budget and were given
bodies `bs j`; with `n = 2` there is no earlier retry, and the provider need never
succeed) and fails there with `e`, `RoundTrip` returns `(nil, e)` after exactly `n - 1`
dispatches, the first with the original body and each later one with the body just
acquired; and, for the same provider, in every round `a > 1` in which it answers with a
body `br`, the dispatch of that round carries `br`. -/
theorem RoundTrip_body_replay_failure (t : retryTransport) (env : Env) (req : Request)
    (f : Nat → Except GoError (Option ReadCloser)) (b0 : ReadCloser) (n : Nat) (e : GoError)
    (bs : Nat → ReadCloser)
    (hB : req.Body = some b0) (hG : req.GetBody = some f)
    (hn2 : 2 ≤ n) (hn : (n : Int) ≤ t.maxRetries + 1)
    (hretry : ∀ j, 1 ≤ j → j < n → shouldRetry (env.next j).1 (env.next j).2 = true)
    (hok : ∀ j, 2 ≤ j → j < n → f j = .ok (some (bs j)))
    (herr : f n = .error e) :
    ((t.RoundTrip env req).1 = .ret none (some e) ∧
      dispatches (t.RoundTrip env req).2 = n - 1 ∧
      sentBodies (t.RoundTrip env req).2 =
        some b0 :: (List.range (n - 2)).map (fun i => some (bs (i + 2)))) ∧
    ∀ (a : Nat) (body br : Option ReadCloser) (backoff : Duration),
      1 < a → body ≠ none → f a = .ok br →
      sentBodies (iteration t env (some f) a body backoff).events = [br] := by
  constructor
  · have hgate : ¬ (req.Body ≠ none ∧ req.GetBody.isNone = true) := by
      rintro ⟨-, hg⟩
      simp [hG] at hg
    have hle : ((0 + 1 : Nat) : Int) ≤ t.maxRetries := by push_cast; omega
    obtain ⟨backoff1, d, hit⟩ :=
      iteration_retry t t.initialBackoff
        (freshBody_first (some f) (some b0)) (hretry 1 (by omega) (by omega)) hle
    obtain ⟨h1, h2, h3⟩ :=
      loop_getBody_error n e bs hn hretry hok herr (n - 2) 1 b0 backoff1 (by omega) (by omega)
    unfold retryTransport.RoundTrip
    rw [if_neg hgate, hB, hG, loop_next hit]
    refine ⟨h1, ?_, ?_⟩
    · simp [dispatches_append, dispatches, dispatches_closeBody, h2]
      omega
    · rw [sentBodies_append, sentBodies_round, h3]
      show [some b0] ++ _ = _
      rw [List.singleton_append]
      congr 1
      apply List.map_congr_left
      intro i _
      show some (bs (1 + 1 + i)) = some (bs (i + 2))
      congr 2
      omega
  · intro a body br backoff ha hbody hfa
    have hf := freshBody_ok ha hbody hfa
    unfold iteration
    rw [hf]
    simp only
    split
    · split <;>
        simp [Step.events, sentBodies_append, sentBodies, sentBodies_closeBody]
    · split <;>
        simp [Step.events, sentBodies_append, sentBodies, sentBodies_closeBody]

/-- C10 witness: `maxRetries = 3`, a server that always answers 503, and a provider that
fails on its first call, at attempt 2: one dispatch, with the original body, and the error
of the provider is returned; a round at attempt 3, where the same provider answers with
body 13, dispatches with body 13. -/
theorem RoundTrip_body_replay_failure_witness :
    (((⟨3, 200 * Millisecond, 2 * Second⟩ : retryTransport).RoundTrip
          ⟨fun _ => (some ⟨503, "", 0⟩, none), fun _ => false⟩
          ⟨some 7, some (fun n => if n = 2 then .error (.other "body gone")
            else .ok (some (10 + n)))⟩).1 = .ret none (some (.other "body gone")) ∧
      dispatches ((⟨3, 200 * Millisecond, 2 * Second⟩ : retryTransport).RoundTrip
          ⟨fun _ => (some ⟨503, "", 0⟩, none), fun _ => false⟩
          ⟨some 7, some (fun n => if n = 2 then .error (.other "body gone")
            else .ok (some (10 + n)))⟩).2 = 2 - 1 ∧
      sentBodies ((⟨3, 200 * Millisecond, 2 * Second⟩ : retryTransport).RoundTrip
          ⟨fun _ => (some ⟨503, "", 0⟩, none), fun _ => false⟩
          ⟨some 7, some (fun n => if n = 2 then .error (.other "body gone")
            else .ok (some (10 + n)))⟩).2 =
        some 7 :: (List.range (2 - 2)).map (fun i => some (10 + (i + 2)))) ∧
    sentBodies (iteration ⟨3, 200 * Millisecond, 2 * Second⟩
        ⟨fun _ => (some ⟨503, "", 0⟩, none), fun _ => false⟩
        (some (fun n => if n = 2 then .error (.other "body gone") else .ok (some (10 + n))))
        3 (some 7) (400 * Millisecond)).events = [some 13] :=
  ⟨(RoundTrip_body_replay_failure ⟨3, 200 * Millisecond, 2 * Second⟩
      ⟨fun _ => (some ⟨503, "", 0⟩, none), fun _ => false⟩
      ⟨some 7, some (fun n => if n = 2 then .error (.other "body gone")
        else .ok (some (10 + n)))⟩
      (fun n => if n = 2 then .error (.other "body gone") else .ok (some (10 + n)))
      7 2 (.other "body gone") (fun j => 10 + j)
      rfl rfl (by decide) (by decide) (fun _ _ _ => rfl) (fun j h2 h3 => by omega) rfl).1,
    (RoundTrip_body_replay_failure ⟨3, 200 * Millisecond, 2 * Second⟩
      ⟨fun _ => (some ⟨503, "", 0⟩, none), fun _ => false⟩
      ⟨some 7, some (fun n => if n = 2 then .error (.other "body gone")
        else .ok (some (10 + n)))⟩
      (fun n => if n = 2 then .error (.other "body gone") else .ok (some (10 + n)))
      7 2 (.other "body gone") (fun j => 10 + j)
      rfl rfl (by decide) (by decide) (fun _ _ _ => rfl) (fun j h2 h3 => by omega) rfl).2
      3 (some 7) (some 13) (400 * Millisecond) (by decide) (by simp) rfl⟩

/-! ## C11: the cap on the exponential wait -/

/-- C11: evaluation of `RoundTrip` for the transport that `New` builds from
`InitialBackoff = 5s` and no `MaxBackoff` (so the default, 2s), against a server that
always answers 503: the first pause is the initial backoff, 5 seconds, which exceeds
`maxBackoff`; only the later pauses are capped. -/
theorem RoundTrip_first_wait_above_maxBackoff :
    (New ⟨0, 0, 5 * Second, 0⟩).retry.maxBackoff = 2 * Second ∧
    waits ((New ⟨0, 0, 5 * Second, 0⟩).retry.RoundTrip
        ⟨fun _ => (some ⟨503, "", 0⟩, none), fun _ => false⟩ ⟨none, none⟩).2 =
      [5 * Second, 2 * Second, 2 * Second] ∧
    ¬ (5 * Second ≤ (New ⟨0, 0, 5 * Second, 0⟩).retry.maxBackoff) := by
  have h1 : iteration ⟨3, 5 * Second, 2 * Second⟩
      ⟨fun _ => (some ⟨503, "", 0⟩, none), fun _ => false⟩ none (0 + 1) none (5 * Second) =
      .next none (2 * Second)
        [.dispatch 1 none (some ⟨503, "", 0⟩) none, .close ⟨503, "", 0⟩,
          .sleep (5 * Second) false] := by rfl
  have h2 : iteration ⟨3, 5 * Second, 2 * Second⟩
      ⟨fun _ => (some ⟨503, "", 0⟩, none), fun _ => false⟩ none (1 + 1) none (2 * Second) =
      .next none (2 * Second)
        [.dispatch 2 none (some ⟨503, "", 0⟩) none, .close ⟨503, "", 0⟩,
          .sleep (2 * Second) false] := by rfl
  have h3 : iteration ⟨3, 5 * Second, 2 * Second⟩
      ⟨fun _ => (some ⟨503, "", 0⟩, none), fun _ => false⟩ none (2 + 1) none (2 * Second) =
      .next none (2 * Second)
        [.dispatch 3 none (some ⟨503, "", 0⟩) none, .close ⟨503, "", 0⟩,
          .sleep (2 * Second) false] := by rfl
  have h4 : iteration ⟨3, 5 * Second, 2 * Second⟩
      ⟨fun _ => (some ⟨503, "", 0⟩, none), fun _ => false⟩ none (3 + 1) none (2 * Second) =
      .done (.ret none (some .errMaxRetries))
        [.dispatch 4 none (some ⟨503, "", 0⟩) none, .close ⟨503, "", 0⟩] := by rfl
  refine ⟨by rfl, ?_, by decide⟩
  show waits ((⟨3, 5 * Second, 2 * Second⟩ : retryTransport).RoundTrip _ _).2 = _
  unfold retryTransport.RoundTrip
  rw [if_neg (by simp)]
  show waits (loop _ _ none 0 none (5 * Second)).2 = _
  rw [loop_next h1, loop_next h2, loop_next h3, loop_done h4]
  rfl

/-! ## C12: admissions in a one-second window -/

/-- C12, as stated, fails: a limiter with `maxRPS = 1` (a tick every second), initialised
by a call at time 0 that is admitted on the tick at 1s, and then idle until 3.5s, keeps
the token of the tick at 2s; so the calls at 3.5s and at 4.1s (after the tick at 4s) are
both admitted by `RoundTrip`: two admissions in the one-second window from 3.2s to 4.2s,
more than `maxRPS`. -/
theorem rateLimiter_window_above_rate :
    (⟨1, false, none⟩ : rateLimiterTransport).init =
      ⟨⟨1, false, some ⟨1, 0⟩⟩, [.makeChan 1, .newTicker 1000000000], false⟩ ∧
    ordered burstRun ∧ onSchedule 0 1000000000 burstRun ∧
    admittedIn 3200000000 (3200000000 + 1000000000) ⟨1, false, none⟩ burstRun = 2 ∧
    ¬ (admittedIn 3200000000 (3200000000 + 1000000000) ⟨1, false, none⟩ burstRun ≤ 1) := by
  refine ⟨by rfl, by decide, by decide, by decide, by decide⟩

/-- C12, amended: for a limiter with `maxRPS = N > 0` whose initialisation does not panic,
never used or in any state of its service, and every run of ticks and calls of `RoundTrip`
in the order of time whose ticks follow a ticker of period `time.Second / N` made at any
time `o`: the calls admitted in a one-second window are at most `N` (the tokens the
channel can hold when the window opens) plus the ticks in that window; the ticks in the
window are at most `10^9 / (time.Second / N) + 1`; and when `N` divides `10^9` the calls
admitted in the window are at most `2 * N`. -/
theorem rateLimiter_window_bound (r : rateLimiterTransport) (run : List TimedAction)
    (o t : Nat) (hN : 0 < r.maxRPS) (hinit : r.init.panicked = false)
    (hstart : inService r.maxRPS r) (hord : ordered run)
    (hsched : onSchedule o (Second / r.maxRPS).toNat run) :
    admittedIn t (t + 1000000000) r run ≤
      r.maxRPS.toNat + depositsIn t (t + 1000000000) run ∧
    depositsIn t (t + 1000000000) run ≤ 1000000000 / (Second / r.maxRPS).toNat + 1 ∧
    (r.maxRPS ∣ 1000000000 → admittedIn t (t + 1000000000) r run ≤ 2 * r.maxRPS.toNat) := by
  have hd0 : 0 < Second / r.maxRPS := ((init_enabled r hN).1).mp hinit
  have hd : 0 < (Second / r.maxRPS).toNat := by
    rw [Int.lt_toNat]
    exact hd0
  have hcap := admittedIn_le_cap r.maxRPS hN t (t + 1000000000) run r hstart hord
  have hdep := depositsIn_le o (Second / r.maxRPS).toNat hd (t + 1000000000) run t hsched
  have hwin := multiples_in_window o (Second / r.maxRPS).toNat t 1000000000 hd
  refine ⟨hcap, le_trans hdep hwin.1, ?_⟩
  intro hdvd
  have hnat : (Second / r.maxRPS).toNat = 1000000000 / r.maxRPS.toNat :=
    interval_toNat r.maxRPS hN
  obtain ⟨n, hn⟩ := Int.eq_ofNat_of_zero_le (le_of_lt hN)
  rw [hn] at hdvd
  have hdvd1 : n ∣ 1000000000 := by exact_mod_cast hdvd
  have hn1 : r.maxRPS.toNat = n := by rw [hn]; exact Int.toNat_ofNat n
  rw [hn1] at hnat hcap ⊢
  rw [hnat] at hdep hwin
  have h1 : 1000000000 / n ∣ 1000000000 := Nat.div_dvd_of_dvd hdvd1
  have h2 : 1000000000 / (1000000000 / n) = n := Nat.div_div_self hdvd1 (by decide)
  have h3 := hwin.2 h1
  rw [h2] at h3
  omega

/-- C12 witness: the burst run of a limiter with `maxRPS = 1`, never used before: two
admissions in the window, one token kept from before it and one tick within it. -/
theorem rateLimiter_window_bound_witness :
    admittedIn 3200000000 (3200000000 + 1000000000) ⟨1, false, none⟩ burstRun ≤
      (1 : Int).toNat + depositsIn 3200000000 (3200000000 + 1000000000) burstRun ∧
    depositsIn 3200000000 (3200000000 + 1000000000) burstRun ≤
      1000000000 / (Second / (1 : Int)).toNat + 1 ∧
    ((1 : Int) ∣ 1000000000 →
      admittedIn 3200000000 (3200000000 + 1000000000) ⟨1, false, none⟩ burstRun ≤
        2 * (1 : Int).toNat) :=
  rateLimiter_window_bound ⟨1, false, none⟩ burstRun 0 3200000000 (by decide) (by rfl)
    ⟨rfl, Or.inl ⟨rfl, rfl⟩⟩ (by decide) (by decide)

/-! ## C13: the token bucket stays within its capacity -/

/-- C13: for a limiter with `maxRPS = N > 0`, `init` makes the channel empty with capacity
`N`, and the first call of `RoundTrip` on a limiter never used leaves it so and is not
admitted; in every state reached from there, or from a limiter never used, by any
sequence of ticks and calls of `RoundTrip` the channel holds at most `N` tokens (and at
least 0, being a count); a tick on a channel holding `N` tokens leaves it as it is, a tick
on a channel holding `k < N` makes it hold `k + 1`; a call of `RoundTrip` that is admitted
(goes on to the next transport) found `k > 0` tokens and leaves `k - 1`, a call that is
not admitted leaves the channel as it is, and a call whose context is not done is
admitted whenever the channel holds a token. -/
theorem tokenBucket_bounds (r : rateLimiterTransport) (hN : 0 < r.maxRPS) :
    r.init.limiter = ⟨r.maxRPS, r.once, some ⟨r.maxRPS.toNat, 0⟩⟩ ∧
    (∀ env req, limiterStep ⟨r.maxRPS, false, none⟩ (.call env req) =
      (⟨r.maxRPS, true, some ⟨r.maxRPS.toNat, 0⟩⟩, false)) ∧
    (∀ acts, ∃ k, k ≤ r.maxRPS.toNat ∧
      limiterRun ⟨r.maxRPS, true, some ⟨r.maxRPS.toNat, 0⟩⟩ acts =
        ⟨r.maxRPS, true, some ⟨r.maxRPS.toNat, k⟩⟩) ∧
    (∀ acts, (limiterRun ⟨r.maxRPS, false, none⟩ acts).held ≤ r.maxRPS.toNat) ∧
    limiterStep ⟨r.maxRPS, true, some ⟨r.maxRPS.toNat, r.maxRPS.toNat⟩⟩ .tick =
      (⟨r.maxRPS, true, some ⟨r.maxRPS.toNat, r.maxRPS.toNat⟩⟩, false) ∧
    (∀ k, k < r.maxRPS.toNat →
      limiterStep ⟨r.maxRPS, true, some ⟨r.maxRPS.toNat, k⟩⟩ .tick =
        (⟨r.maxRPS, true, some ⟨r.maxRPS.toNat, k + 1⟩⟩, false)) ∧
    (∀ k env req,
      dispatched ((⟨r.maxRPS, true, some ⟨r.maxRPS.toNat, k⟩⟩ :
        rateLimiterTransport).RoundTrip env req).2.2 = true →
      0 < k ∧ ((⟨r.maxRPS, true, some ⟨r.maxRPS.toNat, k⟩⟩ :
        rateLimiterTransport).RoundTrip env req).2.1 =
          ⟨r.maxRPS, true, some ⟨r.maxRPS.toNat, k - 1⟩⟩) ∧
    (∀ k env req,
      dispatched ((⟨r.maxRPS, true, some ⟨r.maxRPS.toNat, k⟩⟩ :
        rateLimiterTransport).RoundTrip env req).2.2 = false →
      ((⟨r.maxRPS, true, some ⟨r.maxRPS.toNat, k⟩⟩ :
        rateLimiterTransport).RoundTrip env req).2.1 =
          ⟨r.maxRPS, true, some ⟨r.maxRPS.toNat, k⟩⟩) ∧
    (∀ k env req, 0 < k → env.ctxErr = none →
      (⟨r.maxRPS, true, some ⟨r.maxRPS.toNat, k⟩⟩ : rateLimiterTransport).RoundTrip env req =
        (.ret (env.next req).1 (env.next req).2,
          ⟨r.maxRPS, true, some ⟨r.maxRPS.toNat, k - 1⟩⟩, [.await, .dispatch req])) := by
  refine ⟨(init_enabled r hN).2, ?_, ?_, ?_, ?_, ?_, ?_, ?_, ?_⟩
  · intro env req
    exact limiterStep_call_fresh r.maxRPS env req hN
  · intro acts
    obtain ⟨-, h | h⟩ := limiterRun_inService r.maxRPS hN acts
      ⟨r.maxRPS, true, some ⟨r.maxRPS.toNat, 0⟩⟩
      ⟨rfl, Or.inr ⟨rfl, 0, Nat.zero_le _, rfl⟩⟩
    · exact (limiterRun_once_kept acts _ rfl h.1).elim
    · obtain ⟨ho, k, hk, ht⟩ := h
      have hm := (limiterRun_inService r.maxRPS hN acts
        ⟨r.maxRPS, true, some ⟨r.maxRPS.toNat, 0⟩⟩
        ⟨rfl, Or.inr ⟨rfl, 0, Nat.zero_le _, rfl⟩⟩).1
      refine ⟨k, hk, ?_⟩
      generalize limiterRun ⟨r.maxRPS, true, some ⟨r.maxRPS.toNat, 0⟩⟩ acts = x at hm ho ht
      obtain ⟨m, o, tk⟩ := x
      simp only at hm ho ht
      rw [hm, ho, ht]
  · intro acts
    exact inService_held_le (limiterRun_inService r.maxRPS hN acts ⟨r.maxRPS, false, none⟩
      ⟨rfl, Or.inl ⟨rfl, rfl⟩⟩)
  · rw [limiterStep_tick, if_neg (lt_irrefl _)]
  · intro k hk
    rw [limiterStep_tick, if_pos hk]
  · intro k env req h
    exact (limiterStep_call r.maxRPS r.maxRPS.toNat k env req hN).1 h
  · intro k env req h
    exact (limiterStep_call r.maxRPS r.maxRPS.toNat k env req hN).2 h
  · intro k env req hk hctx
    simp only [rateLimiterTransport.RoundTrip, if_true, rateLimiterTransport.throttle, hN,
      gt_iff_lt, Option.bind, Chan.tryRecv, hctx, hk]

/-- C13 witness: a limiter with `maxRPS = 5`. -/
theorem tokenBucket_bounds_witness :
    (⟨5, false, none⟩ : rateLimiterTransport).init.limiter =
      ⟨5, false, some ⟨(5 : Int).toNat, 0⟩⟩ ∧
    (∀ env req, limiterStep ⟨5, false, none⟩ (.call env req) =
      (⟨5, true, some ⟨(5 : Int).toNat, 0⟩⟩, false)) ∧
    (∀ acts, ∃ k, k ≤ (5 : Int).toNat ∧
      limiterRun ⟨5, true, some ⟨(5 : Int).toNat, 0⟩⟩ acts =
        ⟨5, true, some ⟨(5 : Int).toNat, k⟩⟩) ∧
    (∀ acts, (limiterRun ⟨5, false, none⟩ acts).held ≤ (5 : Int).toNat) ∧
    limiterStep ⟨5, true, some ⟨(5 : Int).toNat, (5 : Int).toNat⟩⟩ .tick =
      (⟨5, true, some ⟨(5 : Int).toNat, (5 : Int).toNat⟩⟩, false) ∧
    (∀ k, k < (5 : Int).toNat →
      limiterStep ⟨5, true, some ⟨(5 : Int).toNat, k⟩⟩ .tick =
        (⟨5, true, some ⟨(5 : Int).toNat, k + 1⟩⟩, false)) ∧
    (∀ k env req,
      dispatched ((⟨5, true, some ⟨(5 : Int).toNat, k⟩⟩ :
        rateLimiterTransport).RoundTrip env req).2.2 = true →
      0 < k ∧ ((⟨5, true, some ⟨(5 : Int).toNat, k⟩⟩ :
        rateLimiterTransport).RoundTrip env req).2.1 =
          ⟨5, true, some ⟨(5 : Int).toNat, k - 1⟩⟩) ∧
    (∀ k env req,
      dispatched ((⟨5, true, some ⟨(5 : Int).toNat, k⟩⟩ :
        rateLimiterTransport).RoundTrip env req).2.2 = false →
      ((⟨5, true, some ⟨(5 : Int).toNat, k⟩⟩ :
        rateLimiterTransport).RoundTrip env req).2.1 =
          ⟨5, true, some ⟨(5 : Int).toNat, k⟩⟩) ∧
    (∀ k env req, 0 < k → env.ctxErr = none →
      (⟨5, true, some ⟨(5 : Int).toNat, k⟩⟩ : rateLimiterTransport).RoundTrip env req =
        (.ret (env.next req).1 (env.next req).2,
          ⟨5, true, some ⟨(5 : Int).toNat, k - 1⟩⟩, [.await, .dispatch req])) :=
  tokenBucket_bounds ⟨5, false, none⟩ (by decide)

/-! ## C14: the disabled limiter -/

/-- C14: with `maxRPS ≤ 0`, whatever the state of the context and of the limiter,
`RoundTrip` makes no channel and no ticker, does not wait, dispatches the request once to
the next transport, and returns exactly what that transport returned. -/
theorem rateLimiter_disabled_pass_through (r : rateLimiterTransport) (env : LimiterEnv)
    (req : Request) (h : r.maxRPS ≤ 0) :
    r.RoundTrip env req =
      (.ret (env.next req).1 (env.next req).2, ⟨r.maxRPS, true, r.tokens⟩,
        [.dispatch req]) := by
  have hthrottle : ∀ r2 : rateLimiterTransport, r2.maxRPS = r.maxRPS →
      r2.throttle env req =
        (.ret (env.next req).1 (env.next req).2, r2, [.dispatch req]) := by
    intro r2 h2
    unfold rateLimiterTransport.throttle
    rw [if_neg (by rw [h2]; exact not_lt.mpr h)]
  have hi : r.init = ⟨r, [], false⟩ := by
    unfold rateLimiterTransport.init
    rw [if_pos h]
  unfold rateLimiterTransport.RoundTrip
  cases ho : r.once with
  | true =>
    simp only [if_true, hthrottle r rfl]
    obtain ⟨m, o, tk⟩ := r
    simp only at ho
    rw [ho]
  | false =>
    simp only [Bool.false_eq_true, if_false, hi,
      hthrottle ⟨r.maxRPS, true, r.tokens⟩ rfl, List.nil_append]

/-- C14 witness: a disabled limiter, never used before, called with a context that is
already cancelled. -/
theorem rateLimiter_disabled_pass_through_witness :
    (⟨0, false, none⟩ : rateLimiterTransport).RoundTrip
        ⟨some .canceled, true, fun _ => (some ⟨200, "", 0⟩, none)⟩ ⟨none, none⟩ =
      (.ret (some ⟨200, "", 0⟩) none, ⟨0, true, none⟩, [.dispatch ⟨none, none⟩]) :=
  rateLimiter_disabled_pass_through ⟨0, false, none⟩
    ⟨some .canceled, true, fun _ => (some ⟨200, "", 0⟩, none)⟩ ⟨none, none⟩ (by decide)

/-! ## C15: the defaults of New -/

/-- C15: for every `Config`, the retry transport built by `New` has `maxRetries = 3` when
`cfg.MaxRetries ≤ 0` and `cfg.MaxRetries` otherwise, `initialBackoff = 200ms` when
`cfg.InitialBackoff = 0` and `cfg.InitialBackoff` otherwise, `maxBackoff = 2s` when
`cfg.MaxBackoff = 0` and `cfg.MaxBackoff` otherwise; the rate limiter it wraps has
`maxRPS = cfg.MaxRPS` and is not initialised; and neither backoff of the transport is 0. -/
theorem New_defaults (cfg : Config) :
    (New cfg).retry.maxRetries = (if cfg.MaxRetries ≤ 0 then 3 else cfg.MaxRetries) ∧
    (New cfg).retry.initialBackoff =
      (if cfg.InitialBackoff = 0 then 200 * Millisecond else cfg.InitialBackoff) ∧
    (New cfg).retry.maxBackoff =
      (if cfg.MaxBackoff = 0 then 2 * Second else cfg.MaxBackoff) ∧
    (New cfg).limiter = ⟨cfg.MaxRPS, false, none⟩ ∧
    (New cfg).retry.initialBackoff ≠ 0 ∧ (New cfg).retry.maxBackoff ≠ 0 := by
  have h200 : (200 * Millisecond : Duration) ≠ 0 := by decide
  have h2s : (2 * Second : Duration) ≠ 0 := by decide
  obtain ⟨rps, mr, ib, mb⟩ := cfg
  simp only [New, withDefaults]
  by_cases h1 : mr ≤ 0 <;> by_cases h2 : ib = 0 <;> by_cases h3 : mb = 0 <;>
    simp [h1, h2, h3, h200, h2s]

/-! ## C16: the unit of the configured durations -/

/-- C16: evaluation of `New` on `InitialBackoff = 500`, `MaxBackoff = 1500` (meant as
milliseconds by the documentation of `Config`): the transport gets 500 and 1500
nanoseconds, not 500 and 1500 milliseconds. -/
theorem New_durations_nanoseconds :
    (New ⟨0, 0, 500, 1500⟩).retry.initialBackoff = 500 * Nanosecond ∧
    (New ⟨0, 0, 500, 1500⟩).retry.maxBackoff = 1500 * Nanosecond ∧
    (New ⟨0, 0, 500, 1500⟩).retry.initialBackoff ≠ 500 * Millisecond ∧
    (New ⟨0, 0, 500, 1500⟩).retry.maxBackoff ≠ 1500 * Millisecond := by
  refine ⟨by rfl, by rfl, by decide, by decide⟩

/-! ## C17: the release of response bodies -/

/-- C17: for every call of `RoundTrip`, whatever the collaborators answer, the trace keeps
the discipline of `released`: a response body is closed only while it is the open one (so
once), every pause and every dispatch happens with no body open (so the body of a response
that is retried is closed before the pause and before the next dispatch), and the only
body left open at the end is that of the response returned to the caller (none when an
error alone is returned, as for `errMaxRetries`). -/
theorem RoundTrip_bodies_released (t : retryTransport) (env : Env) (req : Request) :
    ∃ resp err, (t.RoundTrip env req).1 = .ret resp err ∧
      released none (t.RoundTrip env req).2 = some resp := by
  unfold retryTransport.RoundTrip
  split
  · exact ⟨_, _, rfl, by simp [released]⟩
  · rename_i hgate
    have hb : req.Body ≠ none → req.GetBody.isSome = true := by
      intro hne
      by_contra hg
      apply hgate
      refine ⟨hne, ?_⟩
      cases hG : req.GetBody with
      | none => rfl
      | some f => rw [hG] at hg; simp at hg
    exact loop_released t env req.GetBody (t.maxRetries - (0 : Nat)).toNat 0 req.Body
      t.initialBackoff rfl hb

/-! ## C18: a Retry-After that is not positive or does not parse -/

/-- C19: evaluation of `init` for `maxRPS = 2000000000`: the integer quotient
`time.Second / 2000000000` is 0, `time.NewTicker(0)` panics, and so does `init`, after
the channel is made, and with it the first call of `RoundTrip`, which leaves `r.once`
done; for the rate `10^9` the period is positive and `init` does not panic. -/
theorem init_large_rate_panics :
    Second / 2000000000 = 0 ∧ NewTicker (Second / 2000000000) = none ∧
    (⟨2000000000, false, none⟩ : rateLimiterTransport).init =
      ⟨⟨2000000000, false, some ⟨2000000000, 0⟩⟩, [.makeChan 2000000000], true⟩ ∧
    (∀ env req, (⟨2000000000, false, none⟩ : rateLimiterTransport).RoundTrip env req =
      (.panic, ⟨2000000000, true, some ⟨2000000000, 0⟩⟩, [.makeChan 2000000000])) ∧
    (⟨1000000000, false, none⟩ : rateLimiterTransport).init =
      ⟨⟨1000000000, false, some ⟨1000000000, 0⟩⟩,
        [.makeChan 1000000000, .newTicker 1], false⟩ := by
  refine ⟨by decide, by decide, by rfl, fun _ _ => by rfl, by rfl⟩

end Retryclient
